import Mathlib

/-!
Verification of the deduplication / idempotent-sync core of the
`azure-devops-filler` repository, as a shallow embedding in Lean 4.

The Python sources embedded here are:
  * `src/azure_devops_filler/dedup.py` — `normalize_text`, `generate_hash`,
    `generate_user_story_hash`, `DedupManager` (ledger);
  * `src/azure_devops_filler/cli.py` — `process_activities` (flat mode) and
    `process_activities_with_user_stories` (grouped mode);
  * `src/azure_devops_filler/clients/azure_devops.py` — `AzureDevOpsClient.create_task`;
  * `src/azure_devops_filler/clients/llm.py` — `LLMEnhancer.enhance_description`;
  * `src/azure_devops_filler/models.py` — the data model.

External libraries (Python stdlib `unicodedata`, `hashlib`, the `httpx` network
layer, the filesystem) are modelled explicitly where the embedded code calls
into them; every such modelling choice is documented on the definition.
-/

namespace ADF

/-! ## Data model (`models.py`) -/

/-- `SourceType` enumeration from `models.py`. -/
inductive SourceType where
  | outlook
  | recurring
  | git
deriving DecidableEq, Repr

/-- The `.value` of a `SourceType` member (its string payload in `models.py`). -/
def SourceType.value : SourceType → String
  | .outlook => "outlook"
  | .recurring => "recurring"
  | .git => "git"

/-- A calendar date (`datetime.date`): plain year/month/day fields. -/
structure Date where
  year : Nat
  month : Nat
  day : Nat
deriving DecidableEq, Repr

/-- Validity of a `datetime.date` as used by the program: four-digit year and
calendar month/day ranges. -/
def Date.Valid (d : Date) : Prop :=
  1000 ≤ d.year ∧ d.year ≤ 9999 ∧ 1 ≤ d.month ∧ d.month ≤ 12 ∧ 1 ≤ d.day ∧ d.day ≤ 31

instance (d : Date) : Decidable d.Valid := by
  unfold Date.Valid; infer_instance

/-- A precise timestamp (`datetime.datetime` with offset), used only for the
scheduling fields; its internal structure is irrelevant to every claim, only
the fact that varying it is observable. -/
structure DateTime where
  date : Date
  hour : Nat
  minute : Nat
  second : Nat
  offsetMinutes : Int
deriving DecidableEq, Repr

/-- `Activity` dataclass from `models.py`. -/
structure Activity where
  title : String
  source : SourceType
  date : Date
  hours : Rat
  description : Option String := none
  area_path : Option String := none
  iteration_path : Option String := none
  tags : List String := []
  activity_datetime : Option DateTime := none
deriving DecidableEq, Repr

/-! ## Identity normalization (`dedup.py`, `normalize_text`)

`normalize_text` calls `unicodedata.normalize("NFKD", text)`, drops combining
characters, lowercases, and rejoins the whitespace-split words with single
spaces.  The Unicode machinery lives in the Python stdlib, outside the
repository, and is modelled character-by-character below. -/

/-- `unicodedata.combining(c) != 0` test used by `normalize_text`'s filter,
modelled as membership in the combining-diacritical-marks block U+0300–U+036F,
which contains every mark produced by the decomposition table below. -/
def combining (c : Char) : Bool :=
  0x300 ≤ c.toNat && c.toNat ≤ 0x36F

/-- Modelled from the spec: `unicodedata.normalize("NFKD", text)` (Python
stdlib, external to the repository) decomposes precomposed characters into a
base character followed by combining marks.  Modelled here on the precomposed
Latin-1 letters (the alphabet of the repository's Portuguese titles); ASCII is
NFKD-stable, and other characters are modelled as stable. -/
def nfkdTable : List (Char × List Char) :=
  [ ('À', ['A', '̀']), ('Á', ['A', '́']), ('Â', ['A', '̂']),
    ('Ã', ['A', '̃']), ('Ä', ['A', '̈']), ('Å', ['A', '̊']),
    ('Ç', ['C', '̧']),
    ('È', ['E', '̀']), ('É', ['E', '́']), ('Ê', ['E', '̂']),
    ('Ë', ['E', '̈']),
    ('Ì', ['I', '̀']), ('Í', ['I', '́']), ('Î', ['I', '̂']),
    ('Ï', ['I', '̈']),
    ('Ñ', ['N', '̃']),
    ('Ò', ['O', '̀']), ('Ó', ['O', '́']), ('Ô', ['O', '̂']),
    ('Õ', ['O', '̃']), ('Ö', ['O', '̈']),
    ('Ù', ['U', '̀']), ('Ú', ['U', '́']), ('Û', ['U', '̂']),
    ('Ü', ['U', '̈']),
    ('Ý', ['Y', '́']),
    ('à', ['a', '̀']), ('á', ['a', '́']), ('â', ['a', '̂']),
    ('ã', ['a', '̃']), ('ä', ['a', '̈']), ('å', ['a', '̊']),
    ('ç', ['c', '̧']),
    ('è', ['e', '̀']), ('é', ['e', '́']), ('ê', ['e', '̂']),
    ('ë', ['e', '̈']),
    ('ì', ['i', '̀']), ('í', ['i', '́']), ('î', ['i', '̂']),
    ('ï', ['i', '̈']),
    ('ñ', ['n', '̃']),
    ('ò', ['o', '̀']), ('ó', ['o', '́']), ('ô', ['o', '̂']),
    ('õ', ['o', '̃']), ('ö', ['o', '̈']),
    ('ù', ['u', '̀']), ('ú', ['u', '́']), ('û', ['u', '̂']),
    ('ü', ['u', '̈']),
    ('ý', ['y', '́']), ('ÿ', ['y', '̈']) ]

/-- Per-character NFKD decomposition: ASCII is stable, characters in the table
decompose, anything else is modelled as stable. -/
def nfkdChar (c : Char) : List Char :=
  if c.toNat < 0x80 then [c] else (nfkdTable.lookup c).getD [c]

/-- `str.lower()` (Python stdlib), modelled on the character range the
pipeline can produce: ASCII uppercase maps to ASCII lowercase, everything else
is fixed (accented letters are decomposed before lowercasing reaches them). -/
def pyLower (c : Char) : Char :=
  if 65 ≤ c.toNat && c.toNat ≤ 90 then Char.ofNat (c.toNat + 32) else c

/-- The whitespace set of Python's `str.split()` with no arguments, modelled
as the ASCII whitespace characters. -/
def isPyWs (c : Char) : Bool :=
  c.toNat == 32 || (9 ≤ c.toNat && c.toNat ≤ 13)

/-- Accumulator worker for `str.split()`: `acc` is the word currently being
read (possibly empty). -/
def splitWsAux : List Char → List Char → List (List Char)
  | [], acc => if acc = [] then [] else [acc]
  | c :: rest, acc =>
    if isPyWs c then
      if acc = [] then splitWsAux rest [] else acc :: splitWsAux rest []
    else splitWsAux rest (acc ++ [c])

/-- `str.split()` with no argument (Python stdlib): split on runs of
whitespace, discarding empty pieces. -/
def splitWs (l : List Char) : List (List Char) :=
  splitWsAux l []

/-- `" ".join(words)` (Python stdlib). -/
def joinWords : List (List Char) → List Char
  | [] => []
  | [w] => w
  | w :: ws => w ++ ' ' :: joinWords ws

/-- `normalize_text` from `dedup.py`: NFKD-decompose, drop combining marks,
lowercase, collapse whitespace. -/
def normalize_text (text : String) : String :=
  String.mk (joinWords (splitWs
    (((text.data.flatMap nfkdChar).filter (fun c => !combining c)).map pyLower)))

/-! ## Fingerprints (`dedup.py`, `generate_hash` / `generate_user_story_hash`) -/

/-- Modelled from the spec: `hashlib.sha256(content.encode()).hexdigest()`
(Python stdlib, external to the repository) — the spec calls the fingerprint a
"deterministic digest" whose distinctness properties presuppose
collision-freeness, so the digest is modelled as an injective encoding of its
input (the identity on the content string). -/
def sha256hex (content : String) : String := content

/-- `{month:02d}`-style zero-padded decimal rendering, used by
`generate_user_story_hash`. -/
def padNum (width n : Nat) : String :=
  let s := toString n
  String.mk (List.replicate (width - s.length) '0') ++ s

/-- One decimal digit of `n` (units place), as a character. -/
def digit (n : Nat) : Char :=
  Nat.digitChar (n % 10)

/-- `activity_date.strftime("%Y%m%d")`: four zero-padded year digits followed
by two month digits and two day digits. -/
def dateStr (d : Date) : String :=
  String.mk [digit (d.year / 1000), digit (d.year / 100), digit (d.year / 10), digit d.year,
    digit (d.month / 10), digit d.month, digit (d.day / 10), digit d.day]

/-- `generate_hash` from `dedup.py`: digest of
`f"{source.value}:{normalized_title}:{date_str}"`. -/
def generate_hash (source : SourceType) (title : String) (activity_date : Date) : String :=
  sha256hex (source.value ++ ":" ++ normalize_text title ++ ":" ++ dateStr activity_date)

/-- `generate_user_story_hash` from `dedup.py`: digest of
`f"user_story:{year}{month:02d}"` — a distinct namespace from activity
fingerprints. -/
def generate_user_story_hash (year month : Nat) : String :=
  sha256hex ("user_story:" ++ toString year ++ padNum 2 month)

/-- The fingerprint of an activity, as every `DedupManager` method computes
it: `generate_hash(activity.source, activity.title, activity.date)`. -/
def activityHash (a : Activity) : String :=
  generate_hash a.source a.title a.date

/-- The middle of the `normalize_text` pipeline: decompose, drop combining
marks, lowercase. -/
def decompPipe (l : List Char) : List Char :=
  ((l.flatMap nfkdChar).filter (fun c => !combining c)).map pyLower

/-- A character the pipeline leaves alone: NFKD-stable, not a combining mark,
lowercase-fixed. -/
def GoodChar (c : Char) : Prop :=
  nfkdChar c = [c] ∧ combining c = false ∧ pyLower c = c

/-! ## Idempotency ledger (`dedup.py`, `DedupManager`)

The on-disk store is a JSON object with two tables, `processed` and
`user_stories`.  Python dicts preserve insertion order, so each table is
modelled as an insertion-ordered key/value list.  Every mutating method calls
`_save`, which rewrites the whole file; the manager model records the sequence
of file writes so that "the persisted file was not rewritten" is expressible. -/

/-- "YYYY-MM-DD" (`date.isoformat()`). -/
def dateIso (d : Date) : String :=
  String.mk [digit (d.year / 1000), digit (d.year / 100), digit (d.year / 10), digit d.year,
    '-', digit (d.month / 10), digit d.month, '-', digit (d.day / 10), digit d.day]

/-- One entry of the `processed` table (see `DedupManager.mark_processed`);
`task_id`/`task_url` are `None` for entries stored without a created ticket. -/
structure PEntry where
  source : String
  title : String
  dateIso : String
  task_id : Option Int
  task_url : Option String
  processed_at : String
deriving DecidableEq, Repr

/-- One entry of the `user_stories` table
(see `DedupManager.mark_user_story_processed`). -/
structure UsEntry where
  year : Nat
  month : Nat
  user_story_id : Int
  user_story_url : String
  created_at : String
deriving DecidableEq, Repr

/-- The two tables of the ledger. -/
structure Ledger where
  processed : List (String × PEntry)
  user_stories : List (String × UsEntry)
deriving DecidableEq, Repr

/-- Python dict membership `k in d`. -/
def dictContains {β : Type} (l : List (String × β)) (k : String) : Bool :=
  l.any (fun p => p.1 == k)

/-- Python dict assignment `d[k] = v`: overwrite in place when the key exists
(keeping its position), else append. -/
def dictInsert {β : Type} (l : List (String × β)) (k : String) (v : β) :
    List (String × β) :=
  if dictContains l k then l.map (fun p => if p.1 == k then (k, v) else p)
  else l ++ [(k, v)]

/-- Python dict deletion `del d[k]` (dict keys are unique). -/
def dictErase {β : Type} (l : List (String × β)) (k : String) : List (String × β) :=
  l.filter (fun p => p.1 != k)

/-- The in-memory `DedupManager` state: the cached `_data` plus the sequence
of whole-file rewrites performed by `_save`. -/
structure DedupManager where
  data : Ledger
  fileWrites : List Ledger
deriving DecidableEq, Repr

/-- A manager whose storage loaded as two empty tables (first run). -/
def DedupManager.fresh : DedupManager := ⟨⟨[], []⟩, []⟩

/-- `_save`: replace the cached data and rewrite the whole file. -/
def DedupManager.save (m : DedupManager) (d : Ledger) : DedupManager :=
  ⟨d, m.fileWrites ++ [d]⟩

/-- `DedupManager.is_processed`. -/
def DedupManager.is_processed (m : DedupManager) (a : Activity) : Bool :=
  dictContains m.data.processed (activityHash a)

/-- `DedupManager.mark_processed` (`today` is `date.today().isoformat()`,
an environment input). -/
def DedupManager.mark_processed (m : DedupManager) (a : Activity)
    (task_id : Option Int) (task_url : Option String) (today : String) :
    DedupManager × String :=
  let h := activityHash a
  let entry : PEntry :=
    ⟨a.source.value, a.title, dateIso a.date, task_id, task_url, today⟩
  (m.save ⟨dictInsert m.data.processed h entry, m.data.user_stories⟩, h)

/-- `DedupManager.is_user_story_processed`. -/
def DedupManager.is_user_story_processed (m : DedupManager) (year month : Nat) : Bool :=
  dictContains m.data.user_stories (generate_user_story_hash year month)

/-- `DedupManager.mark_user_story_processed`. -/
def DedupManager.mark_user_story_processed (m : DedupManager) (year month : Nat)
    (user_story_id : Int) (user_story_url : String) (today : String) : DedupManager :=
  m.save ⟨m.data.processed,
    dictInsert m.data.user_stories (generate_user_story_hash year month)
      ⟨year, month, user_story_id, user_story_url, today⟩⟩

/-- `DedupManager.get_user_story_id`. -/
def DedupManager.get_user_story_id (m : DedupManager) (year month : Nat) : Option Int :=
  match m.data.user_stories.lookup (generate_user_story_hash year month) with
  | some e => some e.user_story_id
  | none => none

/-- The scan of `DedupManager.remove_by_task_id`: find the first entry (in
insertion order) whose `task_id` equals the argument and delete it; dict keys
are unique, so `del data["processed"][activity_hash]` removes exactly the
scanned entry. -/
def removeFirstByTaskId : List (String × PEntry) → Int → Option (List (String × PEntry))
  | [], _ => none
  | e :: rest, tid =>
    if e.2.task_id = some tid then some rest
    else match removeFirstByTaskId rest tid with
      | some rest' => some (e :: rest')
      | none => none

/-- `DedupManager.remove_by_task_id`. -/
def DedupManager.remove_by_task_id (m : DedupManager) (tid : Int) : DedupManager × Bool :=
  match removeFirstByTaskId m.data.processed tid with
  | some l => (m.save ⟨l, m.data.user_stories⟩, true)
  | none => (m, false)

/-- `DedupManager.remove`. -/
def DedupManager.remove (m : DedupManager) (activity_hash : String) : DedupManager × Bool :=
  if dictContains m.data.processed activity_hash then
    (m.save ⟨dictErase m.data.processed activity_hash, m.data.user_stories⟩, true)
  else (m, false)

/-! ### `_load` (`dedup.py`) -/

/-- The possible states of the storage file as `_load` distinguishes them:
absent, zero-byte, JSON that does not parse, or a parsed object whose
`user_stories` table may be absent (older schema). -/
inductive StoredFile where
  | missing
  | empty
  | malformed
  | wellFormed (processed : List (String × PEntry))
      (user_stories : Option (List (String × UsEntry)))

/-- `json.load` failure on malformed content (propagated by `_load`). -/
inductive LoadError where
  | invalidJson
deriving DecidableEq, Repr

/-- `DedupManager._load`: missing or zero-byte file gives two empty tables;
a parsed file lacking `user_stories` has that table synthesized empty. -/
def loadLedger : StoredFile → Except LoadError Ledger
  | .missing => .ok ⟨[], []⟩
  | .empty => .ok ⟨[], []⟩
  | .malformed => .error .invalidJson
  | .wellFormed p us => .ok ⟨p, us.getD []⟩


/-! ## Flat-mode orchestrator (`cli.py`, `process_activities`)

The backend adapter is abstracted as an oracle mapping the index of each
creation call to its outcome; the description-enhancement collaborator only
affects the description text passed to the backend, never the control flow,
the counters or the ledger, so it does not appear in the orchestrator model. -/

/-- Outcome of one backend creation call as the orchestrator observes it:
a created work item, or a raised exception (`httpx.HTTPStatusError` or any
other `Exception`, both handled identically up to the printed message). -/
inductive CreateOutcome where
  | ok (id : Int) (url : String)
  | fail
deriving DecidableEq, Repr

/-- State threaded through the flat-mode loop: the two counters, the
activities whose creation raised (each reported individually with its title),
the ledger, and the number of backend creation calls issued so far. -/
structure FlatState where
  created : Nat
  skipped : Nat
  failed : List Activity
  dedup : DedupManager
  calls : Nat
deriving Repr

/-- One iteration of the `process_activities` loop. -/
def processOne (backend : Nat → CreateOutcome) (dry_run : Bool) (today : String)
    (st : FlatState) (a : Activity) : FlatState :=
  if st.dedup.is_processed a then
    { st with skipped := st.skipped + 1 }
  else if dry_run then
    { st with created := st.created + 1 }
  else
    match backend st.calls with
    | .ok i u =>
      { st with
        created := st.created + 1
        calls := st.calls + 1
        dedup := (st.dedup.mark_processed a (some i) (some u) today).1 }
    | .fail =>
      { st with
        calls := st.calls + 1
        failed := st.failed ++ [a] }

/-- `process_activities` from `cli.py` (flat mode). -/
def process_activities (backend : Nat → CreateOutcome) (acts : List Activity)
    (dedup : DedupManager) (dry_run : Bool) (today : String) : FlatState :=
  acts.foldl (processOne backend dry_run today) ⟨0, 0, [], dedup, 0⟩

/-! ## Grouped-mode orchestrator (`cli.py`, `process_activities_with_user_stories`) -/

/-- The grouping key `(activity.date.year, activity.date.month)`. -/
def monthKey (a : Activity) : Nat × Nat :=
  (a.date.year, a.date.month)

/-- `defaultdict(list)` append: extend the key's bucket in place, or append a
new singleton bucket (dict keys keep insertion order). -/
def addToBucket : List ((Nat × Nat) × List Activity) → (Nat × Nat) → Activity →
    List ((Nat × Nat) × List Activity)
  | [], k, a => [(k, [a])]
  | (k', l) :: rest, k, a =>
    if k' = k then (k', l ++ [a]) :: rest
    else (k', l) :: addToBucket rest k a

/-- The grouping loop `by_month[key].append(activity)`. -/
def groupByMonth (acts : List Activity) : List ((Nat × Nat) × List Activity) :=
  acts.foldl (fun g a => addToBucket g (monthKey a) a) []

/-- `by_month[(year, month)]` lookup. -/
def bucketOf : List ((Nat × Nat) × List Activity) → (Nat × Nat) → List Activity
  | [], _ => []
  | (k', l) :: rest, k => if k' = k then l else bucketOf rest k

/-- Python's tuple ordering on `(year, month)` pairs, used by
`sorted(by_month.keys())`. -/
def pairLe (x y : Nat × Nat) : Prop :=
  x.1 < y.1 ∨ (x.1 = y.1 ∧ x.2 ≤ y.2)

instance : DecidableRel pairLe := fun x y => by
  unfold pairLe; infer_instance

instance : IsTotal (Nat × Nat) pairLe :=
  ⟨fun x y => by unfold pairLe; omega⟩

instance : IsTrans (Nat × Nat) pairLe :=
  ⟨fun x y z hxy hyz => by unfold pairLe at hxy hyz ⊢; omega⟩

instance : IsRefl (Nat × Nat) pairLe :=
  ⟨fun x => by unfold pairLe; omega⟩

/-- One observable event of a grouped-mode run, tagged with its month. -/
inductive GEvent where
  | parentReused (year month : Nat) (id : Option Int)
  | parentDry (year month : Nat)
  | parentCreated (year month : Nat) (id : Int)
  | parentFailed (year month : Nat)
  | childSkipped (year month : Nat) (title : String)
  | childDry (year month : Nat) (title : String)
  | childCreated (year month : Nat) (title : String) (parent : Option Int) (id : Int)
  | childFailed (year month : Nat) (title : String) (parent : Option Int)
deriving DecidableEq, Repr

/-- State threaded through the grouped-mode loops, with the event trace. -/
structure GroupState where
  created : Nat
  skipped : Nat
  dedup : DedupManager
  calls : Nat
  trace : List GEvent
deriving Repr

/-- One iteration of the inner (child Task) loop; `parent` is the
month-scoped `user_story_id` carried into `TaskConfig.parent_id`. -/
def processChild (backend : Nat → CreateOutcome) (dry_run : Bool) (today : String)
    (parent : Option Int) (st : GroupState) (a : Activity) : GroupState :=
  if st.dedup.is_processed a then
    { st with
      skipped := st.skipped + 1
      trace := st.trace ++ [.childSkipped a.date.year a.date.month a.title] }
  else if dry_run then
    { st with
      created := st.created + 1
      trace := st.trace ++ [.childDry a.date.year a.date.month a.title] }
  else
    match backend st.calls with
    | .ok i u =>
      { st with
        created := st.created + 1
        calls := st.calls + 1
        dedup := (st.dedup.mark_processed a (some i) (some u) today).1
        trace := st.trace ++ [.childCreated a.date.year a.date.month a.title parent i] }
    | .fail =>
      { st with
        calls := st.calls + 1
        trace := st.trace ++ [.childFailed a.date.year a.date.month a.title parent] }

/-- The per-month body of `process_activities_with_user_stories`: resolve or
create the month's User Story (leaving `user_story_id` unset on failure),
then run the child loop over the month's bucket. -/
def processMonth (backend : Nat → CreateOutcome) (dry_run : Bool) (today : String)
    (g : List ((Nat × Nat) × List Activity)) (st : GroupState) (k : Nat × Nat) :
    GroupState :=
  let resolved : GroupState × Option Int :=
    if st.dedup.is_user_story_processed k.1 k.2 then
      ({ st with trace := st.trace ++
          [.parentReused k.1 k.2 (st.dedup.get_user_story_id k.1 k.2)] },
        st.dedup.get_user_story_id k.1 k.2)
    else if dry_run then
      ({ st with trace := st.trace ++ [.parentDry k.1 k.2] }, none)
    else
      match backend st.calls with
      | .ok i u =>
        ({ st with
          calls := st.calls + 1
          dedup := st.dedup.mark_user_story_processed k.1 k.2 i u today
          trace := st.trace ++ [.parentCreated k.1 k.2 i] }, some i)
      | .fail =>
        ({ st with
          calls := st.calls + 1
          trace := st.trace ++ [.parentFailed k.1 k.2] }, none)
  (bucketOf g k).foldl (processChild backend dry_run today resolved.2) resolved.1

/-- `process_activities_with_user_stories` from `cli.py` (grouped mode). -/
def process_activities_with_user_stories (backend : Nat → CreateOutcome)
    (acts : List Activity) (dedup : DedupManager) (dry_run : Bool) (today : String) :
    GroupState :=
  let g := groupByMonth acts
  (List.insertionSort pairLe (g.map Prod.fst)).foldl
    (processMonth backend dry_run today g) ⟨0, 0, dedup, 0, []⟩

/-- The month tag `(year, month)` of an event. -/
def eventKey : GEvent → Nat × Nat
  | .parentReused y m _ => (y, m)
  | .parentDry y m => (y, m)
  | .parentCreated y m _ => (y, m)
  | .parentFailed y m => (y, m)
  | .childSkipped y m _ => (y, m)
  | .childDry y m _ => (y, m)
  | .childCreated y m _ _ _ => (y, m)
  | .childFailed y m _ _ => (y, m)

/-- Whether an event concerns the monthly parent (User Story). -/
def GEvent.isParent : GEvent → Bool
  | .parentReused _ _ _ => true
  | .parentDry _ _ => true
  | .parentCreated _ _ _ => true
  | .parentFailed _ _ => true
  | _ => false

/-- The title carried by a child event (`none` for parent events). -/
def GEvent.childTitle : GEvent → Option String
  | .childSkipped _ _ t => some t
  | .childDry _ _ t => some t
  | .childCreated _ _ t _ _ => some t
  | .childFailed _ _ t _ => some t
  | _ => none

/-- The parent id attached to a child creation attempt (`none` for skips,
dry runs and parent events). -/
def GEvent.childParentId : GEvent → Option Int
  | .childCreated _ _ _ p _ => p
  | .childFailed _ _ _ p => p
  | _ => none

/-! ## Backend creation protocol adapter
(`clients/azure_devops.py`, `AzureDevOpsClient.create_task`) -/

/-- `TaskConfig` dataclass from `models.py` (payload-construction fields kept;
`to_json_patch` itself is irrelevant to the claims). -/
structure TaskConfig where
  title : String
  project : String
  area_path : String
  iteration_path : String
  completed_work : Rat
  description : Option String := none
  tags : List String := []
  assigned_to : Option String := none
  state : Option String := none
  activity_datetime : Option DateTime := none
  parent_id : Option Int := none
deriving DecidableEq, Repr

/-- `CreatedTask` dataclass from `models.py`. -/
structure CreatedTask where
  id : Int
  url : String
  title : String
  project : String
deriving DecidableEq, Repr

/-- The parsed body of a successful POST: the new work-item id plus the
fields `create_task` reads back. -/
structure PostResponse where
  status : Nat
  id : Int
  url : String
  title : String
deriving DecidableEq, Repr

/-- One `httpx` call as seen from `create_task`: a response (any status), or
a transport-level `httpx.RequestError` raised by the client itself. -/
inductive CallResult (α : Type) where
  | success (response : α)
  | transportError
deriving DecidableEq, Repr

/-- The network environment of one `create_task` invocation: the POST (step
1), the `System.State` PATCH (step 2) and the parent-relation PATCH (step 3).
For the PATCH calls only the HTTP status comes back. -/
structure CreateEnv where
  post : CallResult PostResponse
  statePatch : CallResult Nat
  parentPatch : CallResult Nat
deriving DecidableEq, Repr

/-- The exceptions `create_task` can raise: `ValueError` for a missing
project, `httpx.HTTPStatusError` from `raise_for_status`, or a transport
error propagated from `httpx`. -/
inductive CreateError where
  | valueError
  | httpStatusError (status : Nat)
  | transportError
deriving DecidableEq, Repr

/-- Python string truthiness chain `project or task.project or default`:
first non-`None`, non-empty string. -/
def firstTruthy : List (Option String) → Option String
  | [] => none
  | v :: rest =>
    match v with
    | some s => if s = "" then firstTruthy rest else some s
    | none => firstTruthy rest

/-- `raise_for_status` raises for every non-2xx status. -/
def isHttpSuccess (status : Nat) : Bool :=
  200 ≤ status && status < 300

/-- `AzureDevOpsClient.create_task`: POST the work item (aborting on failure),
then — mirroring the source, which checks neither PATCH's response status —
PATCH the state if `task.state` is truthy and PATCH the parent relation if
`task.parent_id` is truthy, and return the `CreatedTask`.  Only the POST goes
through `raise_for_status`; a PATCH can fail the call solely by raising a
transport error. -/
def create_task (env : CreateEnv) (default_project : Option String)
    (task : TaskConfig) (projectArg : Option String) : Except CreateError CreatedTask :=
  match firstTruthy [projectArg, some task.project, default_project] with
  | none => .error .valueError
  | some target =>
    match env.post with
    | .transportError => .error .transportError
    | .success r =>
      if !isHttpSuccess r.status then .error (.httpStatusError r.status)
      else
        let stateStep : Except CreateError Unit :=
          if task.state.getD "" ≠ "" then
            match env.statePatch with
            | .transportError => .error .transportError
            | .success _ => .ok ()
          else .ok ()
        match stateStep with
        | .error e => .error e
        | .ok () =>
          let parentStep : Except CreateError Unit :=
            if task.parent_id.getD 0 ≠ 0 then
              match env.parentPatch with
              | .transportError => .error .transportError
              | .success _ => .ok ()
            else .ok ()
          match parentStep with
          | .error e => .error e
          | .ok () => .ok ⟨r.id, r.url, r.title, target⟩

/-! ## Description enhancement (`clients/llm.py`, `LLMEnhancer.enhance_description`) -/

/-- One attempt of the enhancement call as `enhance_description` observes it:
a well-formed 2xx response, a 2xx response whose body fails to parse or lacks
the expected keys, a 429 rate-limit response, another non-2xx status, or a
transport error. -/
inductive LLMResult where
  | ok (text : String)
  | malformed
  | status429
  | httpError (status : Nat)
  | transportError
deriving DecidableEq, Repr

/-- `str.strip()` (Python stdlib): drop leading and trailing whitespace. -/
def pyStrip (s : String) : String :=
  String.mk (((s.data.dropWhile (fun c => isPyWs c)).reverse.dropWhile
    (fun c => isPyWs c)).reverse)

/-- The retry loop of `enhance_description` (`max_retries = 5`): a success
returns the stripped text; a non-429 HTTP status error returns the fallback
immediately; 429 sleeps and retries; any other exception retries unless this
was the last attempt.  Exhausting the loop returns the fallback. -/
def enhanceGo (env : Nat → LLMResult) (fallback : String) : Nat → Nat → String
  | _, 0 => fallback
  | attempt, r + 1 =>
    match env attempt with
    | .ok t => pyStrip t
    | .httpError _ => fallback
    | .status429 => enhanceGo env fallback (attempt + 1) r
    | .malformed => if r = 0 then fallback else enhanceGo env fallback (attempt + 1) r
    | .transportError => if r = 0 then fallback else enhanceGo env fallback (attempt + 1) r

/-- `LLMEnhancer.enhance_description`: fallback is the activity's original
description, or the empty string when it has none. -/
def enhance_description (env : Nat → LLMResult) (a : Activity) : String :=
  enhanceGo env (a.description.getD "") 0 5
/-! ## Lemmas about `normalize_text` -/


theorem normalize_text_eq_pipe (s : String) :
    normalize_text s = String.mk (joinWords (splitWs (decompPipe s.data))) := rfl


theorem toNat_ofNat_of_lt {n : Nat} (h : n < 0xD800) : (Char.ofNat n).toNat = n := by
  unfold Char.ofNat
  rw [dif_pos (Or.inl h)]
  rfl

theorem nfkdChar_stable_of_ascii {c : Char} (h : c.toNat < 0x80) : nfkdChar c = [c] := by
  unfold nfkdChar
  rw [if_pos h]

theorem combining_false_of_lt {c : Char} (h : c.toNat < 0x300) : combining c = false := by
  unfold combining
  have hd : decide (0x300 ≤ c.toNat) = false := decide_eq_false (by omega)
  rw [hd, Bool.false_and]

theorem pyLower_fixed_of {c : Char} (h : ¬(65 ≤ c.toNat ∧ c.toNat ≤ 90)) :
    pyLower c = c := by
  unfold pyLower
  rw [if_neg]
  simp only [Bool.and_eq_true, decide_eq_true_eq]
  exact h

theorem goodChar_of_ascii {c : Char} (h : c.toNat < 0x80) : GoodChar (pyLower c) := by
  by_cases h65 : 65 ≤ c.toNat ∧ c.toNat ≤ 90
  · have hv : c.toNat + 32 < 0xD800 := by omega
    have ht : (Char.ofNat (c.toNat + 32)).toNat = c.toNat + 32 := toNat_ofNat_of_lt hv
    have hpy : pyLower c = Char.ofNat (c.toNat + 32) := by
      unfold pyLower
      rw [if_pos]
      simp only [Bool.and_eq_true, decide_eq_true_eq]
      exact h65
    rw [hpy]
    refine ⟨?_, ?_, ?_⟩
    · exact nfkdChar_stable_of_ascii (by rw [ht]; omega)
    · exact combining_false_of_lt (by rw [ht]; omega)
    · exact pyLower_fixed_of (by rw [ht]; omega)
  · rw [pyLower_fixed_of h65]
    exact ⟨nfkdChar_stable_of_ascii h, combining_false_of_lt (by omega),
      pyLower_fixed_of h65⟩

theorem lookup_mem {α β : Type} [BEq α] [LawfulBEq α] :
    ∀ (l : List (α × β)) (k : α) (v : β), l.lookup k = some v → (k, v) ∈ l := by
  intro l
  induction l with
  | nil => intro k v h; simp [List.lookup] at h
  | cons p rest ih =>
    intro k v h
    rw [List.lookup] at h
    cases hk : k == p.1 with
    | true =>
      rw [hk] at h
      simp only [Option.some.injEq] at h
      have hkp : k = p.1 := eq_of_beq hk
      rw [hkp, ← h]
      simp
    | false =>
      rw [hk] at h
      right
      exact ih k v h

/-- Finite inspection of the decomposition table: every character it emits is
either a combining mark or plain ASCII. -/
theorem nfkdTable_values_ascii :
    ∀ p ∈ nfkdTable, ∀ e ∈ p.2, combining e = true ∨ e.toNat < 0x80 := by decide

/-- Characters emitted by the pipeline are stable under a second pass. -/
theorem goodChar_of_nfkd {c e : Char} (he : e ∈ nfkdChar c)
    (hcomb : combining e = false) : GoodChar (pyLower e) := by
  unfold nfkdChar at he
  by_cases hc : c.toNat < 0x80
  · rw [if_pos hc] at he
    simp only [List.mem_singleton] at he
    subst he
    exact goodChar_of_ascii hc
  · rw [if_neg hc] at he
    cases hl : nfkdTable.lookup c with
    | none =>
      rw [hl] at he
      simp only [Option.getD_none, List.mem_singleton] at he
      subst he
      have hfix : pyLower e = e := by
        unfold pyLower
        rw [if_neg]
        simp only [Bool.and_eq_true, decide_eq_true_eq]
        omega
      rw [hfix]
      refine ⟨?_, hcomb, hfix⟩
      unfold nfkdChar
      rw [if_neg hc, hl]
      rfl
    | some l =>
      rw [hl] at he
      simp only [Option.getD_some] at he
      have hmem : (c, l) ∈ nfkdTable := lookup_mem _ _ _ hl
      have := nfkdTable_values_ascii (c, l) hmem e he
      rcases this with h | h
      · rw [h] at hcomb; cases hcomb
      · exact goodChar_of_ascii h

/-- Every character of the pipeline's output is stable. -/
theorem decompPipe_good {l : List Char} {d : Char} (hd : d ∈ decompPipe l) :
    GoodChar d := by
  unfold decompPipe at hd
  rw [List.mem_map] at hd
  obtain ⟨e, he, rfl⟩ := hd
  rw [List.mem_filter] at he
  obtain ⟨he, hcomb⟩ := he
  rw [List.mem_flatMap] at he
  obtain ⟨c, _, he⟩ := he
  simp only [Bool.not_eq_true'] at hcomb
  exact goodChar_of_nfkd he hcomb

/-- The pipeline is the identity on a list of stable characters. -/
theorem decompPipe_fixed : ∀ {l : List Char}, (∀ c ∈ l, GoodChar c) → decompPipe l = l := by
  intro l
  induction l with
  | nil => intro _; rfl
  | cons c rest ih =>
    intro h
    obtain ⟨h1, h2, h3⟩ := h c (List.mem_cons_self c rest)
    have hrest := ih (fun d hd => h d (List.mem_cons_of_mem c hd))
    unfold decompPipe at hrest ⊢
    rw [List.flatMap_cons, h1]
    rw [List.singleton_append, List.filter_cons_of_pos (by simp [h2])]
    rw [List.map_cons, h3, hrest]

theorem joinWords_cons_cons (w v : List Char) (rest : List (List Char)) :
    joinWords (w :: v :: rest) = w ++ ' ' :: joinWords (v :: rest) := rfl

theorem joinWords_mem : ∀ (ws : List (List Char)) (d : Char), d ∈ joinWords ws →
    d = ' ' ∨ ∃ w ∈ ws, d ∈ w := by
  intro ws
  induction ws with
  | nil => intro d hd; cases hd
  | cons w tail ih =>
    intro d hd
    cases tail with
    | nil =>
      right
      exact ⟨w, List.mem_cons_self _ _, hd⟩
    | cons v rest =>
      rw [joinWords_cons_cons, List.mem_append] at hd
      rcases hd with hd | hd
      · right; exact ⟨w, List.mem_cons_self _ _, hd⟩
      · rw [List.mem_cons] at hd
        rcases hd with rfl | hd
        · left; rfl
        · rcases ih d hd with h | ⟨u, hu, hdu⟩
          · left; exact h
          · right; exact ⟨u, List.mem_cons_of_mem _ hu, hdu⟩

theorem splitWsAux_mem : ∀ (l acc : List Char) (w : List Char), w ∈ splitWsAux l acc →
    ∀ c ∈ w, c ∈ l ∨ c ∈ acc := by
  intro l
  induction l with
  | nil =>
    intro acc w hw c hc
    rw [splitWsAux] at hw
    by_cases ha : acc = []
    · rw [if_pos ha] at hw; cases hw
    · rw [if_neg ha] at hw
      rw [List.mem_singleton] at hw
      subst hw
      right; exact hc
  | cons x rest ih =>
    intro acc w hw c hc
    rw [splitWsAux] at hw
    by_cases hx : isPyWs x
    · rw [if_pos hx] at hw
      by_cases ha : acc = []
      · rw [if_pos ha] at hw
        rcases ih [] w hw c hc with h | h
        · left; exact List.mem_cons_of_mem _ h
        · cases h
      · rw [if_neg ha] at hw
        rw [List.mem_cons] at hw
        rcases hw with rfl | hw
        · right; exact hc
        · rcases ih [] w hw c hc with h | h
          · left; exact List.mem_cons_of_mem _ h
          · cases h
    · rw [if_neg hx] at hw
      rcases ih _ w hw c hc with h | h
      · left; exact List.mem_cons_of_mem _ h
      · rw [List.mem_append] at h
        rcases h with h | h
        · right; exact h
        · rw [List.mem_singleton] at h
          subst h
          left; exact List.mem_cons_self _ _

theorem splitWsAux_words : ∀ (l acc : List Char), (∀ c ∈ acc, isPyWs c = false) →
    ∀ w ∈ splitWsAux l acc, w ≠ [] ∧ ∀ c ∈ w, isPyWs c = false := by
  intro l
  induction l with
  | nil =>
    intro acc hacc w hw
    rw [splitWsAux] at hw
    by_cases ha : acc = []
    · rw [if_pos ha] at hw; cases hw
    · rw [if_neg ha] at hw
      rw [List.mem_singleton] at hw
      subst hw
      exact ⟨ha, hacc⟩
  | cons x rest ih =>
    intro acc hacc w hw
    rw [splitWsAux] at hw
    by_cases hx : isPyWs x
    · rw [if_pos hx] at hw
      by_cases ha : acc = []
      · rw [if_pos ha] at hw
        exact ih [] (by intro c hc; cases hc) w hw
      · rw [if_neg ha] at hw
        rw [List.mem_cons] at hw
        rcases hw with rfl | hw
        · exact ⟨ha, hacc⟩
        · exact ih [] (by intro c hc; cases hc) w hw
    · rw [if_neg hx] at hw
      refine ih _ ?_ w hw
      intro c hc
      rw [List.mem_append] at hc
      rcases hc with hc | hc
      · exact hacc c hc
      · rw [List.mem_singleton] at hc
        subst hc
        simpa using hx

theorem splitWsAux_word_chunk : ∀ (w l acc : List Char), (∀ c ∈ w, isPyWs c = false) →
    splitWsAux (w ++ l) acc = splitWsAux l (acc ++ w) := by
  intro w
  induction w with
  | nil => intro l acc _; simp
  | cons c w' ih =>
    intro l acc hw
    have hc : isPyWs c = false := hw c (List.mem_cons_self _ _)
    rw [List.cons_append, splitWsAux, if_neg (by simp [hc])]
    rw [ih l (acc ++ [c]) (fun d hd => hw d (List.mem_cons_of_mem _ hd))]
    rw [List.append_assoc]
    rfl

theorem splitWs_joinWords : ∀ (ws : List (List Char)),
    (∀ w ∈ ws, w ≠ [] ∧ ∀ c ∈ w, isPyWs c = false) →
    splitWs (joinWords ws) = ws := by
  intro ws
  induction ws with
  | nil => intro _; rfl
  | cons w tail ih =>
    intro h
    obtain ⟨hw, hwc⟩ := h w (List.mem_cons_self _ _)
    cases tail with
    | nil =>
      show splitWsAux (joinWords [w]) [] = [w]
      rw [joinWords]
      rw [← List.append_nil w, splitWsAux_word_chunk w [] [] hwc]
      rw [splitWsAux, if_neg (by simpa using hw)]
      simp
    | cons v rest =>
      show splitWsAux (joinWords (w :: v :: rest)) [] = w :: v :: rest
      rw [joinWords_cons_cons]
      rw [splitWsAux_word_chunk w (' ' :: joinWords (v :: rest)) [] hwc]
      rw [splitWsAux, if_pos (by decide), if_neg (by simpa using hw)]
      simp only [List.nil_append]
      congr 1
      exact ih (fun u hu => h u (List.mem_cons_of_mem _ hu))

/-- `normalize_text` is idempotent. -/
theorem normalize_text_idem (s : String) :
    normalize_text (normalize_text s) = normalize_text s := by
  rw [normalize_text_eq_pipe s, normalize_text_eq_pipe]
  set W := splitWs (decompPipe s.data) with hW
  have hwords : ∀ w ∈ W, w ≠ [] ∧ ∀ c ∈ w, isPyWs c = false := by
    intro w hw
    exact splitWsAux_words _ [] (by intro c hc; cases hc) w hw
  have hgood : ∀ c ∈ joinWords W, GoodChar c := by
    intro c hc
    rcases joinWords_mem W c hc with rfl | ⟨w, hw, hcw⟩
    · refine ⟨by decide, by decide, by decide⟩
    · have : c ∈ decompPipe s.data ∨ c ∈ ([] : List Char) :=
        splitWsAux_mem _ [] w hw c hcw
      rcases this with h | h
      · exact decompPipe_good h
      · cases h
  have hdata : (String.mk (joinWords W)).data = joinWords W := rfl
  rw [hdata, decompPipe_fixed hgood, splitWs_joinWords W hwords]

/-! ## Lemmas about the fingerprint (claim C1) -/

theorem value_colon_free : ∀ s : SourceType, ':' ∉ s.value.data := by
  intro s
  cases s <;> decide

theorem value_inj : ∀ s t : SourceType, s.value = t.value → s = t := by
  intro s t
  cases s <;> cases t <;> simp [SourceType.value]

/-- Splitting `a ++ ':' :: r` at the first colon is unambiguous when both
head parts are colon-free. -/
theorem colon_split : ∀ (a₁ a₂ r₁ r₂ : List Char), ':' ∉ a₁ → ':' ∉ a₂ →
    a₁ ++ ':' :: r₁ = a₂ ++ ':' :: r₂ → a₁ = a₂ ∧ r₁ = r₂ := by
  intro a₁
  induction a₁ with
  | nil =>
    intro a₂ r₁ r₂ _ h₂ h
    cases a₂ with
    | nil =>
      simp only [List.nil_append, List.cons.injEq] at h
      exact ⟨rfl, h.2⟩
    | cons x a₂' =>
      simp only [List.nil_append, List.cons_append, List.cons.injEq] at h
      rw [← h.1] at h₂
      exact absurd (List.mem_cons_self ':' a₂') h₂
  | cons x a₁' ih =>
    intro a₂ r₁ r₂ h₁ h₂ h
    cases a₂ with
    | nil =>
      simp only [List.cons_append, List.nil_append, List.cons.injEq] at h
      rw [h.1] at h₁
      exact absurd (List.mem_cons_self ':' a₁') h₁
    | cons y a₂' =>
      simp only [List.cons_append, List.cons.injEq] at h
      obtain ⟨hxy, h⟩ := h
      have := ih a₂' r₁ r₂ (fun hm => h₁ (List.mem_cons_of_mem _ hm))
        (fun hm => h₂ (List.mem_cons_of_mem _ hm)) h
      exact ⟨by rw [hxy, this.1], this.2⟩

theorem digitChar_fin_inj : ∀ a b : Fin 10, Nat.digitChar a = Nat.digitChar b → a = b := by
  decide

theorem digit_inj {a b : Nat} (h : digit a = digit b) : a % 10 = b % 10 := by
  have ha : a % 10 < 10 := Nat.mod_lt _ (by omega)
  have hb : b % 10 < 10 := Nat.mod_lt _ (by omega)
  have := digitChar_fin_inj ⟨a % 10, ha⟩ ⟨b % 10, hb⟩ h
  simpa [Fin.mk.injEq] using this

theorem dateStr_inj {d₁ d₂ : Date} (h₁ : d₁.Valid) (h₂ : d₂.Valid)
    (h : dateStr d₁ = dateStr d₂) : d₁ = d₂ := by
  obtain ⟨y₁, m₁, dd₁⟩ := d₁
  obtain ⟨y₂, m₂, dd₂⟩ := d₂
  unfold Date.Valid at h₁ h₂
  dsimp only at h₁ h₂
  have h' : (dateStr ⟨y₁, m₁, dd₁⟩).data = (dateStr ⟨y₂, m₂, dd₂⟩).data :=
    congrArg String.data h
  simp only [dateStr, List.cons.injEq, and_true] at h'
  obtain ⟨e1, e2, e3, e4, e5, e6, e7, e8⟩ := h'
  obtain ⟨hy₁, hy₁', _, hm₁, _, hd₁⟩ := h₁
  obtain ⟨hy₂, hy₂', _, hm₂, _, hd₂⟩ := h₂
  have g1 := digit_inj e1
  have g2 := digit_inj e2
  have g3 := digit_inj e3
  have g4 := digit_inj e4
  have g5 := digit_inj e5
  have g6 := digit_inj e6
  have g7 := digit_inj e7
  have g8 := digit_inj e8
  simp only [Date.mk.injEq]
  omega

theorem generate_hash_data (s : SourceType) (t : String) (d : Date) :
    (generate_hash s t d).data =
      s.value.data ++ ':' :: ((normalize_text t).data ++ ':' :: (dateStr d).data) := by
  simp only [generate_hash, sha256hex, String.data_append]
  simp [List.append_assoc]

theorem dateStr_data_length (d : Date) : (dateStr d).data.length = 8 := rfl

/-- Injectivity of the fingerprint content on its identity-defining fields. -/
theorem generate_hash_inj {s₁ s₂ : SourceType} {t₁ t₂ : String} {d₁ d₂ : Date}
    (hv₁ : d₁.Valid) (hv₂ : d₂.Valid)
    (h : generate_hash s₁ t₁ d₁ = generate_hash s₂ t₂ d₂) :
    s₁ = s₂ ∧ normalize_text t₁ = normalize_text t₂ ∧ d₁ = d₂ := by
  have hdata : (generate_hash s₁ t₁ d₁).data = (generate_hash s₂ t₂ d₂).data := by rw [h]
  rw [generate_hash_data, generate_hash_data] at hdata
  obtain ⟨hval, hrest⟩ := colon_split _ _ _ _ (value_colon_free s₁) (value_colon_free s₂) hdata
  refine ⟨value_inj s₁ s₂ (String.ext hval), ?_, ?_⟩
  all_goals {
    have hrest' : ((normalize_text t₁).data ++ [':']) ++ (dateStr d₁).data =
        ((normalize_text t₂).data ++ [':']) ++ (dateStr d₂).data := by
      simpa [List.append_assoc] using hrest
    have hlen : (dateStr d₁).data.length = (dateStr d₂).data.length := by
      rw [dateStr_data_length, dateStr_data_length]
    obtain ⟨hleft, hdate⟩ := List.append_inj' hrest' hlen
    first
    | exact String.ext (List.append_inj' hleft rfl).1
    | exact dateStr_inj hv₁ hv₂ (String.ext hdate)
  }
/-! ## Lemmas about the ledger's dict operations -/

theorem key_of_update {β : Type} (k : String) (v : β) (p : String × β) :
    ((if p.1 == k then (k, v) else p) : String × β).1 = p.1 := by
  by_cases h : (p.1 == k) = true
  · rw [if_pos h]
    exact (eq_of_beq h).symm
  · rw [if_neg h]

theorem any_key_map_update {β : Type} (l : List (String × β)) (k f : String) (v : β) :
    (l.map (fun p => if p.1 == k then (k, v) else p)).any (fun p => p.1 == f) =
      l.any (fun p => p.1 == f) := by
  induction l with
  | nil => rfl
  | cons p rest ih =>
    simp only [List.map_cons, List.any_cons]
    rw [key_of_update, ih]

theorem dictContains_insert {β : Type} (l : List (String × β)) (k f : String) (v : β) :
    dictContains (dictInsert l k v) f = (dictContains l f || f == k) := by
  unfold dictInsert
  by_cases hc : dictContains l k
  · rw [if_pos hc]
    show (l.map _).any _ = _
    rw [any_key_map_update]
    by_cases hfk : f = k
    · subst hfk
      unfold dictContains at hc
      show l.any _ = _
      rw [hc]
      simp
    · have hb : (f == k) = false := by simp [hfk]
      rw [hb, Bool.or_false]
      rfl
  · rw [if_neg hc]
    unfold dictContains
    rw [List.any_append]
    simp only [List.any_cons, List.any_nil, Bool.or_false]
    by_cases hfk : f = k
    · subst hfk
      simp
    · have h1 : (f == k) = false := by simp [hfk]
      have h2 : (k == f) = false := by simp [Ne.symm hfk]
      rw [h1, h2]

/-! ## Lemmas about the flat-mode orchestrator -/

theorem processOne_skip (backend : Nat → CreateOutcome) (dry_run : Bool) (today : String)
    {st : FlatState} {a : Activity} (h : st.dedup.is_processed a = true) :
    processOne backend dry_run today st a = { st with skipped := st.skipped + 1 } := by
  unfold processOne
  rw [if_pos h]

theorem processOne_ok (backend : Nat → CreateOutcome) (today : String)
    {st : FlatState} {a : Activity} {i : Int} {u : String}
    (h : st.dedup.is_processed a = false) (hb : backend st.calls = .ok i u) :
    processOne backend false today st a = { st with
      created := st.created + 1
      calls := st.calls + 1
      dedup := (st.dedup.mark_processed a (some i) (some u) today).1 } := by
  unfold processOne
  rw [if_neg (by simp [h]), if_neg (by simp), hb]

theorem processOne_fail (backend : Nat → CreateOutcome) (today : String)
    {st : FlatState} {a : Activity}
    (h : st.dedup.is_processed a = false) (hb : backend st.calls = .fail) :
    processOne backend false today st a = { st with
      calls := st.calls + 1
      failed := st.failed ++ [a] } := by
  unfold processOne
  rw [if_neg (by simp [h]), if_neg (by simp), hb]

theorem flat_counts (backend : Nat → CreateOutcome) (today : String) :
    ∀ (acts : List Activity) (st : FlatState),
    (acts.foldl (processOne backend false today) st).created +
      (acts.foldl (processOne backend false today) st).skipped +
      (acts.foldl (processOne backend false today) st).failed.length =
      st.created + st.skipped + st.failed.length + acts.length ∧
    (acts.foldl (processOne backend false today) st).calls +
      st.created + st.failed.length =
      st.calls + (acts.foldl (processOne backend false today) st).created +
        (acts.foldl (processOne backend false today) st).failed.length := by
  intro acts
  induction acts with
  | nil => intro st; simp
  | cons a rest ih =>
    intro st
    rw [List.foldl_cons]
    by_cases hp : st.dedup.is_processed a
    · rw [processOne_skip backend false today hp]
      have h := ih { st with skipped := st.skipped + 1 }
      dsimp only at h
      simp only [List.length_cons]
      omega
    · rw [Bool.not_eq_true] at hp
      cases hb : backend st.calls with
      | ok i u =>
        rw [processOne_ok backend today hp hb]
        have h := ih { st with
          created := st.created + 1
          calls := st.calls + 1
          dedup := (st.dedup.mark_processed a (some i) (some u) today).1 }
        dsimp only at h
        simp only [List.length_cons]
        omega
      | fail =>
        rw [processOne_fail backend today hp hb]
        have h := ih { st with
          calls := st.calls + 1
          failed := st.failed ++ [a] }
        dsimp only at h
        simp only [List.length_cons, List.length_append, List.length_nil] at h ⊢
        omega

theorem flat_keys_mono (backend : Nat → CreateOutcome) (today : String) (f : String) :
    ∀ (acts : List Activity) (st : FlatState),
    dictContains st.dedup.data.processed f = true →
    dictContains (acts.foldl (processOne backend false today) st).dedup.data.processed f
      = true := by
  intro acts
  induction acts with
  | nil => intro st h; exact h
  | cons a rest ih =>
    intro st h
    rw [List.foldl_cons]
    by_cases hp : st.dedup.is_processed a
    · rw [processOne_skip backend false today hp]
      exact ih _ h
    · rw [Bool.not_eq_true] at hp
      cases hb : backend st.calls with
      | ok i u =>
        rw [processOne_ok backend today hp hb]
        refine ih _ ?_
        show dictContains (dictInsert st.dedup.data.processed (activityHash a) _) f = true
        rw [dictContains_insert, h, Bool.true_or]
      | fail =>
        rw [processOne_fail backend today hp hb]
        exact ih _ h

theorem flat_keys_preserved (backend : Nat → CreateOutcome) (today : String) (f : String) :
    ∀ (acts : List Activity) (st : FlatState),
    (∀ b ∈ acts, activityHash b ≠ f) →
    dictContains (acts.foldl (processOne backend false today) st).dedup.data.processed f
      = dictContains st.dedup.data.processed f := by
  intro acts
  induction acts with
  | nil => intro st _; rfl
  | cons a rest ih =>
    intro st hne
    rw [List.foldl_cons]
    by_cases hp : st.dedup.is_processed a
    · rw [processOne_skip backend false today hp]
      exact ih _ (fun b hb => hne b (List.mem_cons_of_mem _ hb))
    · rw [Bool.not_eq_true] at hp
      cases hb : backend st.calls with
      | ok i u =>
        rw [processOne_ok backend today hp hb]
        rw [ih _ (fun b hb => hne b (List.mem_cons_of_mem _ hb))]
        show dictContains (dictInsert st.dedup.data.processed (activityHash a) _) f = _
        rw [dictContains_insert]
        have hfe : (f == activityHash a) = false := by
          simp [Ne.symm (hne a (List.mem_cons_self _ _))]
        rw [hfe, Bool.or_false]
      | fail =>
        rw [processOne_fail backend today hp hb]
        exact ih _ (fun b hb => hne b (List.mem_cons_of_mem _ hb))

theorem flat_failed_unwritten (backend : Nat → CreateOutcome) (today : String) :
    ∀ (acts : List Activity) (st : FlatState),
    (acts.map activityHash).Nodup →
    ∀ a ∈ (acts.foldl (processOne backend false today) st).failed,
      a ∈ st.failed ∨
        dictContains (acts.foldl (processOne backend false today) st).dedup.data.processed
          (activityHash a) = false := by
  intro acts
  induction acts with
  | nil => intro st _ a ha; exact Or.inl ha
  | cons b rest ih =>
    intro st hnd a ha
    rw [List.map_cons, List.nodup_cons] at hnd
    obtain ⟨hb_notin, hnd'⟩ := hnd
    rw [List.foldl_cons] at ha ⊢
    by_cases hp : st.dedup.is_processed b
    · rw [processOne_skip backend false today hp] at ha ⊢
      exact ih _ hnd' a ha
    · rw [Bool.not_eq_true] at hp
      cases hcall : backend st.calls with
      | ok i u =>
        rw [processOne_ok backend today hp hcall] at ha ⊢
        exact ih _ hnd' a ha
      | fail =>
        rw [processOne_fail backend today hp hcall] at ha ⊢
        rcases ih _ hnd' a ha with hmem | hfalse
        · dsimp only at hmem
          rw [List.mem_append] at hmem
          rcases hmem with hmem | hmem
          · exact Or.inl hmem
          · rw [List.mem_singleton] at hmem
            subst hmem
            right
            rw [flat_keys_preserved backend today _ rest _ ?hne]
            case hne =>
              intro c hc hcontra
              exact hb_notin (hcontra ▸ List.mem_map_of_mem activityHash hc)
            show dictContains st.dedup.data.processed (activityHash a) = false
            unfold DedupManager.is_processed at hp
            exact hp
        · exact Or.inr hfalse

/-- C3 — flat-mode failure isolation: at the end of a run, `created + skipped
+ #errors = N` (so erred activities are counted in neither total), every
non-skipped activity produced exactly one backend call (`calls + skipped =
N`: one failure never aborts the batch), and — when the batch carries no two
normalization-equivalent duplicates — an erred activity's fingerprint is
absent from the final ledger. -/
theorem c3_flat_failure_isolation (backend : Nat → CreateOutcome)
    (acts : List Activity) (dedup : DedupManager) (today : String) :
    (process_activities backend acts dedup false today).created +
        (process_activities backend acts dedup false today).skipped +
        (process_activities backend acts dedup false today).failed.length = acts.length ∧
    (process_activities backend acts dedup false today).calls +
        (process_activities backend acts dedup false today).skipped = acts.length ∧
    ((acts.map activityHash).Nodup →
      ∀ a ∈ (process_activities backend acts dedup false today).failed,
        dictContains
          (process_activities backend acts dedup false today).dedup.data.processed
          (activityHash a) = false) := by
  have h := flat_counts backend today acts ⟨0, 0, [], dedup, 0⟩
  refine ⟨?_, ?_, ?_⟩
  · simpa [process_activities] using h.1
  · have h1 := h.1
    have h2 := h.2
    simp only [List.length_nil, Nat.add_zero, Nat.zero_add] at h1 h2
    show (process_activities backend acts dedup false today).calls + _ = _
    unfold process_activities
    omega
  · intro hnd a ha
    rcases flat_failed_unwritten backend today acts ⟨0, 0, [], dedup, 0⟩ hnd a ha with h | h
    · cases h
    · exact h

/-- Witness for C3 at a concrete three-activity batch whose second creation
call fails. -/
theorem c3_witness :
    (([⟨"Reunião", .outlook, ⟨2026, 2, 19⟩, 1, none, none, none, [], none⟩,
       ⟨"Deploy", .git, ⟨2026, 2, 19⟩, 2, none, none, none, [], none⟩,
       ⟨"Daily", .recurring, ⟨2026, 2, 20⟩, 1, none, none, none, [], none⟩] :
        List Activity).map activityHash).Nodup ∧
    ∀ a ∈ (process_activities (fun n => if n = 1 then .fail else .ok 100 "u")
        [⟨"Reunião", .outlook, ⟨2026, 2, 19⟩, 1, none, none, none, [], none⟩,
         ⟨"Deploy", .git, ⟨2026, 2, 19⟩, 2, none, none, none, [], none⟩,
         ⟨"Daily", .recurring, ⟨2026, 2, 20⟩, 1, none, none, none, [], none⟩]
        DedupManager.fresh false "2026-02-21").failed,
      dictContains (process_activities (fun n => if n = 1 then .fail else .ok 100 "u")
        [⟨"Reunião", .outlook, ⟨2026, 2, 19⟩, 1, none, none, none, [], none⟩,
         ⟨"Deploy", .git, ⟨2026, 2, 19⟩, 2, none, none, none, [], none⟩,
         ⟨"Daily", .recurring, ⟨2026, 2, 20⟩, 1, none, none, none, [], none⟩]
        DedupManager.fresh false "2026-02-21").dedup.data.processed (activityHash a)
        = false :=
  ⟨by decide,
    (c3_flat_failure_isolation (fun n => if n = 1 then .fail else .ok 100 "u")
      [⟨"Reunião", .outlook, ⟨2026, 2, 19⟩, 1, none, none, none, [], none⟩,
       ⟨"Deploy", .git, ⟨2026, 2, 19⟩, 2, none, none, none, [], none⟩,
       ⟨"Daily", .recurring, ⟨2026, 2, 20⟩, 1, none, none, none, [], none⟩]
      DedupManager.fresh "2026-02-21").2.2 (by decide)⟩

theorem flat_create_all (backend : Nat → CreateOutcome) (today : String)
    (hok : ∀ n, backend n ≠ .fail) :
    ∀ (acts : List Activity) (st : FlatState),
    (acts.map activityHash).Nodup →
    (∀ a ∈ acts, dictContains st.dedup.data.processed (activityHash a) = false) →
    (acts.foldl (processOne backend false today) st).created = st.created + acts.length ∧
    (acts.foldl (processOne backend false today) st).skipped = st.skipped ∧
    (acts.foldl (processOne backend false today) st).calls = st.calls + acts.length ∧
    (acts.foldl (processOne backend false today) st).failed = st.failed ∧
    (∀ a ∈ acts,
      dictContains (acts.foldl (processOne backend false today) st).dedup.data.processed
        (activityHash a) = true) := by
  intro acts
  induction acts with
  | nil =>
    intro st _ _
    refine ⟨by simp, rfl, by simp, rfl, ?_⟩
    intro a ha
    cases ha
  | cons a rest ih =>
    intro st hnd hfresh
    rw [List.map_cons, List.nodup_cons] at hnd
    obtain ⟨ha_notin, hnd'⟩ := hnd
    have hp : st.dedup.is_processed a = false :=
      hfresh a (List.mem_cons_self _ _)
    rw [List.foldl_cons]
    cases hb : backend st.calls with
    | fail => exact absurd hb (hok _)
    | ok i u =>
      rw [processOne_ok backend today hp hb]
      set st' : FlatState := { st with
        created := st.created + 1
        calls := st.calls + 1
        dedup := (st.dedup.mark_processed a (some i) (some u) today).1 } with hst'
      have hkey : ∀ f, dictContains st'.dedup.data.processed f =
          (dictContains st.dedup.data.processed f || f == activityHash a) := by
        intro f
        show dictContains (dictInsert st.dedup.data.processed (activityHash a) _) f = _
        rw [dictContains_insert]
      have hfresh' : ∀ b ∈ rest, dictContains st'.dedup.data.processed (activityHash b)
          = false := by
        intro b hbm
        rw [hkey, hfresh b (List.mem_cons_of_mem _ hbm), Bool.false_or]
        simp only [beq_eq_false_iff_ne, ne_eq]
        intro hcontra
        exact ha_notin (hcontra ▸ List.mem_map_of_mem activityHash hbm)
      obtain ⟨ih1, ih2, ih3, ih4, ih5⟩ := ih st' hnd' hfresh'
      refine ⟨?_, ?_, ?_, ?_, ?_⟩
      · rw [ih1]; dsimp only; simp only [List.length_cons]; omega
      · rw [ih2]
      · rw [ih3]; dsimp only; simp only [List.length_cons]; omega
      · rw [ih4]
      · intro b hbm
        rw [List.mem_cons] at hbm
        rcases hbm with rfl | hbm
        · refine flat_keys_mono backend today _ rest st' ?_
          rw [hkey]
          simp
        · exact ih5 b hbm

theorem flat_skip_all (backend : Nat → CreateOutcome) (today : String) :
    ∀ (acts : List Activity) (st : FlatState),
    (∀ a ∈ acts, st.dedup.is_processed a = true) →
    acts.foldl (processOne backend false today) st =
      { st with skipped := st.skipped + acts.length } := by
  intro acts
  induction acts with
  | nil => intro st _; simp
  | cons a rest ih =>
    intro st hall
    rw [List.foldl_cons, processOne_skip backend false today (hall a (List.mem_cons_self _ _))]
    rw [ih { st with skipped := st.skipped + 1 }
      (fun b hb => hall b (List.mem_cons_of_mem _ hb))]
    simp only [List.length_cons, FlatState.mk.injEq, and_true, true_and]
    omega

/-- C4 (amended) — idempotent double run in flat mode: starting from a fresh
ledger, for a batch whose fingerprints are pairwise distinct and an
always-succeeding backend, the first run creates everything and skips
nothing, and a second run over the resulting ledger creates nothing, skips
everything, and issues zero backend creation calls. -/
theorem c4_idempotent_two_runs (backend₁ backend₂ : Nat → CreateOutcome)
    (acts : List Activity) (today₁ today₂ : String)
    (hok : ∀ n, backend₁ n ≠ .fail) (hnd : (acts.map activityHash).Nodup) :
    (process_activities backend₁ acts DedupManager.fresh false today₁).created = acts.length ∧
    (process_activities backend₁ acts DedupManager.fresh false today₁).skipped = 0 ∧
    (process_activities backend₂ acts
      (process_activities backend₁ acts DedupManager.fresh false today₁).dedup
      false today₂).created = 0 ∧
    (process_activities backend₂ acts
      (process_activities backend₁ acts DedupManager.fresh false today₁).dedup
      false today₂).skipped = acts.length ∧
    (process_activities backend₂ acts
      (process_activities backend₁ acts DedupManager.fresh false today₁).dedup
      false today₂).calls = 0 := by
  have hfresh : ∀ a ∈ acts,
      dictContains (⟨0, 0, [], DedupManager.fresh, 0⟩ : FlatState).dedup.data.processed
        (activityHash a) = false := by
    intro a _
    rfl
  obtain ⟨h1, h2, _, _, h5⟩ :=
    flat_create_all backend₁ today₁ hok acts ⟨0, 0, [], DedupManager.fresh, 0⟩ hnd hfresh
  have hskip := flat_skip_all backend₂ today₂ acts
    ⟨0, 0, [], (process_activities backend₁ acts DedupManager.fresh false today₁).dedup, 0⟩
    (fun a ha => h5 a ha)
  refine ⟨by simpa [process_activities] using h1, by simpa [process_activities] using h2,
    ?_, ?_, ?_⟩
  · show (acts.foldl (processOne backend₂ false today₂) _).created = 0
    rw [hskip]
  · show (acts.foldl (processOne backend₂ false today₂) _).skipped = acts.length
    rw [hskip]
    dsimp only
    omega
  · show (acts.foldl (processOne backend₂ false today₂) _).calls = 0
    rw [hskip]

/-- C4 counterexample — the claim quantifies over every fixed activity list,
but a batch containing two normalization-identical activities on the same
date dedups against itself mid-run: with N = 2 equal activities and an
always-succeeding backend, the first run over a fresh ledger yields
`created = 1, skipped = 1`, not `created = 2, skipped = 0`. -/
theorem c4_counterexample :
    ¬ ((process_activities (fun n => .ok (100 + Int.ofNat n) "u")
        [⟨"Reunião", .outlook, ⟨2026, 2, 19⟩, 1, none, none, none, [], none⟩,
         ⟨"Reunião", .outlook, ⟨2026, 2, 19⟩, 1, none, none, none, [], none⟩]
        DedupManager.fresh false "2026-02-21").created = 2 ∧
       (process_activities (fun n => .ok (100 + Int.ofNat n) "u")
        [⟨"Reunião", .outlook, ⟨2026, 2, 19⟩, 1, none, none, none, [], none⟩,
         ⟨"Reunião", .outlook, ⟨2026, 2, 19⟩, 1, none, none, none, [], none⟩]
        DedupManager.fresh false "2026-02-21").skipped = 0) := by
  decide

/-- Witness for C4 (amended) at a concrete two-activity batch. -/
theorem c4_witness :
    (∀ n : Nat, (fun _ : Nat => CreateOutcome.ok 7 "u") n ≠ CreateOutcome.fail) ∧
    (([⟨"Reunião", .outlook, ⟨2026, 2, 19⟩, 1, none, none, none, [], none⟩,
       ⟨"Deploy", .git, ⟨2026, 2, 20⟩, 2, none, none, none, [], none⟩] :
        List Activity).map activityHash).Nodup ∧
    ((process_activities (fun _ : Nat => CreateOutcome.ok 7 "u")
        [⟨"Reunião", .outlook, ⟨2026, 2, 19⟩, 1, none, none, none, [], none⟩,
         ⟨"Deploy", .git, ⟨2026, 2, 20⟩, 2, none, none, none, [], none⟩]
        DedupManager.fresh false "d1").created = 2 ∧
      (process_activities (fun _ : Nat => CreateOutcome.ok 7 "u")
        [⟨"Reunião", .outlook, ⟨2026, 2, 19⟩, 1, none, none, none, [], none⟩,
         ⟨"Deploy", .git, ⟨2026, 2, 20⟩, 2, none, none, none, [], none⟩]
        DedupManager.fresh false "d1").skipped = 0 ∧
      (process_activities (fun _ : Nat => CreateOutcome.ok 9 "v")
        [⟨"Reunião", .outlook, ⟨2026, 2, 19⟩, 1, none, none, none, [], none⟩,
         ⟨"Deploy", .git, ⟨2026, 2, 20⟩, 2, none, none, none, [], none⟩]
        (process_activities (fun _ : Nat => CreateOutcome.ok 7 "u")
          [⟨"Reunião", .outlook, ⟨2026, 2, 19⟩, 1, none, none, none, [], none⟩,
           ⟨"Deploy", .git, ⟨2026, 2, 20⟩, 2, none, none, none, [], none⟩]
          DedupManager.fresh false "d1").dedup false "d2").created = 0 ∧
      (process_activities (fun _ : Nat => CreateOutcome.ok 9 "v")
        [⟨"Reunião", .outlook, ⟨2026, 2, 19⟩, 1, none, none, none, [], none⟩,
         ⟨"Deploy", .git, ⟨2026, 2, 20⟩, 2, none, none, none, [], none⟩]
        (process_activities (fun _ : Nat => CreateOutcome.ok 7 "u")
          [⟨"Reunião", .outlook, ⟨2026, 2, 19⟩, 1, none, none, none, [], none⟩,
           ⟨"Deploy", .git, ⟨2026, 2, 20⟩, 2, none, none, none, [], none⟩]
          DedupManager.fresh false "d1").dedup false "d2").skipped = 2 ∧
      (process_activities (fun _ : Nat => CreateOutcome.ok 9 "v")
        [⟨"Reunião", .outlook, ⟨2026, 2, 19⟩, 1, none, none, none, [], none⟩,
         ⟨"Deploy", .git, ⟨2026, 2, 20⟩, 2, none, none, none, [], none⟩]
        (process_activities (fun _ : Nat => CreateOutcome.ok 7 "u")
          [⟨"Reunião", .outlook, ⟨2026, 2, 19⟩, 1, none, none, none, [], none⟩,
           ⟨"Deploy", .git, ⟨2026, 2, 20⟩, 2, none, none, none, [], none⟩]
          DedupManager.fresh false "d1").dedup false "d2").calls = 0) :=
  ⟨fun n h => by simp at h, by decide,
    c4_idempotent_two_runs (fun _ : Nat => CreateOutcome.ok 7 "u") (fun _ : Nat => CreateOutcome.ok 9 "v")
      [⟨"Reunião", .outlook, ⟨2026, 2, 19⟩, 1, none, none, none, [], none⟩,
       ⟨"Deploy", .git, ⟨2026, 2, 20⟩, 2, none, none, none, [], none⟩]
      "d1" "d2" (fun n h => by simp at h) (by decide)⟩

/-! ## Lemmas about `remove_by_task_id` / `remove` -/

theorem rfbti_none_iff : ∀ (l : List (String × PEntry)) (tid : Int),
    removeFirstByTaskId l tid = none ↔ ∀ e ∈ l, e.2.task_id ≠ some tid := by
  intro l
  induction l with
  | nil =>
    intro tid
    simp [removeFirstByTaskId]
  | cons e rest ih =>
    intro tid
    rw [removeFirstByTaskId]
    by_cases h : e.2.task_id = some tid
    · rw [if_pos h]
      constructor
      · intro hc
        exact absurd hc (Option.some_ne_none rest)
      · intro hall
        exact absurd h (hall e (List.mem_cons_self _ _))
    · rw [if_neg h]
      cases hr : removeFirstByTaskId rest tid with
      | some l' =>
        constructor
        · intro hc
          exact absurd hc (Option.some_ne_none _)
        · intro hall
          have hn : removeFirstByTaskId rest tid = none :=
            (ih tid).mpr (fun b hb => hall b (List.mem_cons_of_mem _ hb))
          rw [hr] at hn
          exact absurd hn (Option.some_ne_none _)
      | none =>
        constructor
        · intro _ b hb
          rcases List.mem_cons.mp hb with rfl | hb'
          · exact h
          · exact (ih tid).mp hr b hb'
        · intro _
          rfl

theorem rfbti_some_spec : ∀ (l : List (String × PEntry)) (tid : Int)
    (l' : List (String × PEntry)), removeFirstByTaskId l tid = some l' →
    ∃ pre e post, l = pre ++ e :: post ∧ e.2.task_id = some tid ∧
      (∀ e' ∈ pre, e'.2.task_id ≠ some tid) ∧ l' = pre ++ post := by
  intro l
  induction l with
  | nil =>
    intro tid l' h
    simp [removeFirstByTaskId] at h
  | cons e rest ih =>
    intro tid l' h
    rw [removeFirstByTaskId] at h
    by_cases he : e.2.task_id = some tid
    · rw [if_pos he] at h
      simp only [Option.some.injEq] at h
      subst h
      exact ⟨[], e, rest, rfl, he, fun x hx => absurd hx (List.not_mem_nil x), rfl⟩
    · rw [if_neg he] at h
      cases hr : removeFirstByTaskId rest tid with
      | none =>
        rw [hr] at h
        simp at h
      | some rest' =>
        rw [hr] at h
        simp only [Option.some.injEq] at h
        obtain ⟨pre, f, post, h1, h2, h3, h4⟩ := ih tid rest' hr
        refine ⟨e :: pre, f, post, ?_, h2, ?_, ?_⟩
        · rw [List.cons_append, h1]
        · intro e' he'
          rcases List.mem_cons.mp he' with rfl | he''
          · exact he
          · exact h3 e' he''
        · rw [← h, h4]
          rfl

/-- C7 — `remove_by_task_id`: when some stored entry's `task_id` equals the
given id, it returns `true` and deletes exactly the first such entry (all
entries before and after it are untouched, the monthly-parent table is
untouched); otherwise — in particular when matching entries exist only with
no stored id — it returns `false` with the manager unchanged. -/
theorem c7_remove_by_task_id (m : DedupManager) (tid : Int) :
    ((∀ e ∈ m.data.processed, e.2.task_id ≠ some tid) →
      m.remove_by_task_id tid = (m, false)) ∧
    ((∃ e ∈ m.data.processed, e.2.task_id = some tid) →
      (m.remove_by_task_id tid).2 = true ∧
      ∃ pre e post, m.data.processed = pre ++ e :: post ∧ e.2.task_id = some tid ∧
        (∀ e' ∈ pre, e'.2.task_id ≠ some tid) ∧
        (m.remove_by_task_id tid).1.data.processed = pre ++ post ∧
        (m.remove_by_task_id tid).1.data.user_stories = m.data.user_stories) := by
  constructor
  · intro hall
    unfold DedupManager.remove_by_task_id
    rw [(rfbti_none_iff _ _).mpr hall]
  · rintro ⟨e₀, he₀m, he₀⟩
    unfold DedupManager.remove_by_task_id
    cases hr : removeFirstByTaskId m.data.processed tid with
    | none => exact absurd he₀ ((rfbti_none_iff _ _).mp hr e₀ he₀m)
    | some l' =>
      obtain ⟨pre, e, post, h1, h2, h3, h4⟩ := rfbti_some_spec _ tid l' hr
      exact ⟨rfl, pre, e, post, h1, h2, h3, by subst h4; rfl, rfl⟩

/-- Witness for C7 on a three-entry ledger whose middle entry has no stored
id and whose last entry carries id 1001. -/
theorem c7_witness :
    (∃ e ∈ (⟨⟨[("h1", ⟨"outlook", "A", "2026-02-19", some 7, some "u", "t"⟩),
        ("h2", ⟨"recurring", "B", "2026-02-19", none, none, "t"⟩),
        ("h3", ⟨"git", "C", "2026-02-20", some 1001, some "v", "t"⟩)], []⟩, []⟩ :
        DedupManager).data.processed, e.2.task_id = some 1001) ∧
    ((⟨⟨[("h1", ⟨"outlook", "A", "2026-02-19", some 7, some "u", "t"⟩),
        ("h2", ⟨"recurring", "B", "2026-02-19", none, none, "t"⟩),
        ("h3", ⟨"git", "C", "2026-02-20", some 1001, some "v", "t"⟩)], []⟩, []⟩ :
        DedupManager).remove_by_task_id 1001).2 = true ∧
    ∃ pre e post,
      (⟨⟨[("h1", ⟨"outlook", "A", "2026-02-19", some 7, some "u", "t"⟩),
        ("h2", ⟨"recurring", "B", "2026-02-19", none, none, "t"⟩),
        ("h3", ⟨"git", "C", "2026-02-20", some 1001, some "v", "t"⟩)], []⟩, []⟩ :
        DedupManager).data.processed = pre ++ e :: post ∧
      e.2.task_id = some 1001 ∧ (∀ e' ∈ pre, e'.2.task_id ≠ some 1001) ∧
      ((⟨⟨[("h1", ⟨"outlook", "A", "2026-02-19", some 7, some "u", "t"⟩),
        ("h2", ⟨"recurring", "B", "2026-02-19", none, none, "t"⟩),
        ("h3", ⟨"git", "C", "2026-02-20", some 1001, some "v", "t"⟩)], []⟩, []⟩ :
        DedupManager).remove_by_task_id 1001).1.data.processed = pre ++ post ∧
      ((⟨⟨[("h1", ⟨"outlook", "A", "2026-02-19", some 7, some "u", "t"⟩),
        ("h2", ⟨"recurring", "B", "2026-02-19", none, none, "t"⟩),
        ("h3", ⟨"git", "C", "2026-02-20", some 1001, some "v", "t"⟩)], []⟩, []⟩ :
        DedupManager).remove_by_task_id 1001).1.data.user_stories =
        (⟨⟨[("h1", ⟨"outlook", "A", "2026-02-19", some 7, some "u", "t"⟩),
        ("h2", ⟨"recurring", "B", "2026-02-19", none, none, "t"⟩),
        ("h3", ⟨"git", "C", "2026-02-20", some 1001, some "v", "t"⟩)], []⟩, []⟩ :
        DedupManager).data.user_stories :=
  ⟨⟨("h3", ⟨"git", "C", "2026-02-20", some 1001, some "v", "t"⟩), by decide, rfl⟩,
    (c7_remove_by_task_id
      ⟨⟨[("h1", ⟨"outlook", "A", "2026-02-19", some 7, some "u", "t"⟩),
        ("h2", ⟨"recurring", "B", "2026-02-19", none, none, "t"⟩),
        ("h3", ⟨"git", "C", "2026-02-20", some 1001, some "v", "t"⟩)], []⟩, []⟩ 1001).2
      ⟨("h3", ⟨"git", "C", "2026-02-20", some 1001, some "v", "t"⟩), by decide, rfl⟩⟩

/-- C10 — a `remove` miss or a `remove_by_task_id` miss returns `false` and
leaves the whole manager — cached data and the sequence of file writes —
unchanged, so the persisted ledger file is not rewritten. -/
theorem c10_remove_miss (m : DedupManager) (activity_hash : String) (tid : Int) :
    (dictContains m.data.processed activity_hash = false →
      m.remove activity_hash = (m, false)) ∧
    ((∀ e ∈ m.data.processed, e.2.task_id ≠ some tid) →
      m.remove_by_task_id tid = (m, false)) := by
  constructor
  · intro h
    unfold DedupManager.remove
    rw [if_neg (by simp [h])]
  · intro hall
    unfold DedupManager.remove_by_task_id
    rw [(rfbti_none_iff _ _).mpr hall]

/-- Witness for C10 on a one-entry ledger probed with an absent fingerprint
and an unmatched ticket id. -/
theorem c10_witness :
    (dictContains (⟨⟨[("h1", ⟨"outlook", "A", "2026-02-19", some 7, some "u", "t"⟩)], []⟩,
        [⟨[("h1", ⟨"outlook", "A", "2026-02-19", some 7, some "u", "t"⟩)], []⟩]⟩ :
        DedupManager).data.processed "h9" = false ∧
      (⟨⟨[("h1", ⟨"outlook", "A", "2026-02-19", some 7, some "u", "t"⟩)], []⟩,
        [⟨[("h1", ⟨"outlook", "A", "2026-02-19", some 7, some "u", "t"⟩)], []⟩]⟩ :
        DedupManager).remove "h9" =
        (⟨⟨[("h1", ⟨"outlook", "A", "2026-02-19", some 7, some "u", "t"⟩)], []⟩,
          [⟨[("h1", ⟨"outlook", "A", "2026-02-19", some 7, some "u", "t"⟩)], []⟩]⟩, false)) ∧
    ((∀ e ∈ (⟨⟨[("h1", ⟨"outlook", "A", "2026-02-19", some 7, some "u", "t"⟩)], []⟩,
        [⟨[("h1", ⟨"outlook", "A", "2026-02-19", some 7, some "u", "t"⟩)], []⟩]⟩ :
        DedupManager).data.processed, e.2.task_id ≠ some 42) ∧
      (⟨⟨[("h1", ⟨"outlook", "A", "2026-02-19", some 7, some "u", "t"⟩)], []⟩,
        [⟨[("h1", ⟨"outlook", "A", "2026-02-19", some 7, some "u", "t"⟩)], []⟩]⟩ :
        DedupManager).remove_by_task_id 42 =
        (⟨⟨[("h1", ⟨"outlook", "A", "2026-02-19", some 7, some "u", "t"⟩)], []⟩,
          [⟨[("h1", ⟨"outlook", "A", "2026-02-19", some 7, some "u", "t"⟩)], []⟩]⟩, false)) :=
  ⟨⟨by decide,
    (c10_remove_miss
      ⟨⟨[("h1", ⟨"outlook", "A", "2026-02-19", some 7, some "u", "t"⟩)], []⟩,
        [⟨[("h1", ⟨"outlook", "A", "2026-02-19", some 7, some "u", "t"⟩)], []⟩]⟩ "h9" 42).1
      (by decide)⟩,
   ⟨by decide,
    (c10_remove_miss
      ⟨⟨[("h1", ⟨"outlook", "A", "2026-02-19", some 7, some "u", "t"⟩)], []⟩,
        [⟨[("h1", ⟨"outlook", "A", "2026-02-19", some 7, some "u", "t"⟩)], []⟩]⟩ "h9" 42).2
      (by decide)⟩⟩

/-- C6 — `_load`: a missing file and a zero-byte file both load as two empty
tables without error, and a parsed file lacking the `user_stories` table
loads with that table synthesized empty and the stored `processed` table
preserved unchanged. -/
theorem c6_load_ledger :
    loadLedger .missing = .ok ⟨[], []⟩ ∧ loadLedger .empty = .ok ⟨[], []⟩ ∧
    ∀ p, loadLedger (.wellFormed p none) = .ok ⟨p, []⟩ :=
  ⟨rfl, rfl, fun _ => rfl⟩

/-- C3 counterexample — the claim's "that activity's fingerprint is never
written to the ledger" fails as universally stated: in a batch holding the
same activity twice, the first copy errs (backend call 0 fails) yet the
second copy is created (call 1 succeeds), writing their shared fingerprint,
so an erred activity's fingerprint ends up in the ledger. -/
theorem c3_counterexample :
    (⟨"Reunião", .outlook, ⟨2026, 2, 19⟩, 1, none, none, none, [], none⟩ : Activity) ∈
      (process_activities (fun n => if n = 0 then .fail else .ok 100 "u")
        [⟨"Reunião", .outlook, ⟨2026, 2, 19⟩, 1, none, none, none, [], none⟩,
         ⟨"Reunião", .outlook, ⟨2026, 2, 19⟩, 1, none, none, none, [], none⟩]
        DedupManager.fresh false "2026-02-21").failed ∧
    dictContains (process_activities (fun n => if n = 0 then .fail else .ok 100 "u")
        [⟨"Reunião", .outlook, ⟨2026, 2, 19⟩, 1, none, none, none, [], none⟩,
         ⟨"Reunião", .outlook, ⟨2026, 2, 19⟩, 1, none, none, none, [], none⟩]
        DedupManager.fresh false "2026-02-21").dedup.data.processed
      (activityHash ⟨"Reunião", .outlook, ⟨2026, 2, 19⟩, 1, none, none, none, [], none⟩)
      = true := by
  decide

/-- C1 — fingerprint characterization: for activities whose dates are valid
calendar dates, the fingerprints agree exactly when source kind, title up to
normalization, and calendar date agree.  The reverse direction gives the
invariance (the hash reads neither hours, description, tags nor the precise
timestamp — they do not occur in the statement's right-hand side); the
forward direction gives distinctness under any change of source kind,
normalized title, or date. -/
theorem c1_fingerprint_iff (a b : Activity) (ha : a.date.Valid) (hb : b.date.Valid) :
    activityHash a = activityHash b ↔
      (a.source = b.source ∧ normalize_text a.title = normalize_text b.title ∧
        a.date = b.date) := by
  constructor
  · intro h
    exact generate_hash_inj ha hb h
  · rintro ⟨h1, h2, h3⟩
    unfold activityHash generate_hash
    rw [h1, h3]
    have : normalize_text a.title = normalize_text b.title := h2
    rw [this]

/-- Witness for C1: two activities with diacritic/case/whitespace-variant
titles, equal dates, and different hours, description, tags and timestamp
share a fingerprint. -/
theorem c1_witness :
    (⟨"Verificação Mensal", .outlook, ⟨2026, 2, 19⟩, 2, some "raw", none, none, ["x"],
        some ⟨⟨2026, 2, 19⟩, 9, 0, 0, -180⟩⟩ : Activity).date.Valid ∧
    (⟨"  verificacao   MENSAL ", .outlook, ⟨2026, 2, 19⟩, 8, none, some "Area", none, [],
        none⟩ : Activity).date.Valid ∧
    activityHash ⟨"Verificação Mensal", .outlook, ⟨2026, 2, 19⟩, 2, some "raw", none, none,
        ["x"], some ⟨⟨2026, 2, 19⟩, 9, 0, 0, -180⟩⟩ =
      activityHash ⟨"  verificacao   MENSAL ", .outlook, ⟨2026, 2, 19⟩, 8, none, some "Area",
        none, [], none⟩ :=
  ⟨by decide, by decide,
    (c1_fingerprint_iff
      ⟨"Verificação Mensal", .outlook, ⟨2026, 2, 19⟩, 2, some "raw", none, none, ["x"],
        some ⟨⟨2026, 2, 19⟩, 9, 0, 0, -180⟩⟩
      ⟨"  verificacao   MENSAL ", .outlook, ⟨2026, 2, 19⟩, 8, none, some "Area", none, [],
        none⟩ (by decide) (by decide)).mpr ⟨rfl, by decide, rfl⟩⟩

/-- C9 — `normalize_text` is total (a Lean function over all of `String`) and
idempotent, and maps the empty string to the empty string. -/
theorem c9_normalize_idempotent :
    (∀ s : String, normalize_text (normalize_text s) = normalize_text s) ∧
    normalize_text "" = "" :=
  ⟨normalize_text_idem, rfl⟩

/-- C2 counterexample — `create_task` checks neither PATCH's response status
(`raise_for_status` is called only after the POST), so with the POST
succeeding and the `System.State` PATCH answering HTTP 500 — a failure of
step 2 — `create_task` still returns a successful `CreatedTask`. -/
theorem c2_counterexample :
    create_task
      ⟨.success ⟨200, 1001, "https://x/_workitems/edit/1001", "T"⟩, .success 500, .success 500⟩
      (some "proj")
      ⟨"T", "proj", "A", "I", 1, none, [], none, some "Fechado", none, some 2001⟩
      none
      = .ok ⟨1001, "https://x/_workitems/edit/1001", "T", "proj"⟩ := rfl

/-- C2 (amended) — in the three-step creation sequence, a transport-level
failure of step 2 or step 3 propagates as the creation's failure; an HTTP
error status returned by step 2 or step 3 is silently ignored and
`create_task` returns the successful `CreatedTask` regardless of the PATCH
statuses. -/
theorem c2_patch_failure_semantics (env : CreateEnv) (default_project : Option String)
    (task : TaskConfig) (projectArg : Option String) (target : String) (r : PostResponse)
    (htarget : firstTruthy [projectArg, some task.project, default_project] = some target)
    (hpost : env.post = .success r) (hstatus : isHttpSuccess r.status = true) :
    ((task.state.getD "" ≠ "" ∧ env.statePatch = .transportError) →
      create_task env default_project task projectArg = .error .transportError) ∧
    ((task.parent_id.getD 0 ≠ 0 ∧ env.parentPatch = .transportError ∧
        (task.state.getD "" = "" ∨ ∃ s, env.statePatch = .success s)) →
      create_task env default_project task projectArg = .error .transportError) ∧
    (((task.state.getD "" = "" ∨ ∃ s, env.statePatch = .success s) ∧
        (task.parent_id.getD 0 = 0 ∨ ∃ s, env.parentPatch = .success s)) →
      create_task env default_project task projectArg = .ok ⟨r.id, r.url, r.title, target⟩) := by
  refine ⟨?_, ?_, ?_⟩
  · rintro ⟨hs, hst⟩
    simp [create_task, htarget, hpost, hstatus, hs, hst]
  · rintro ⟨hpid, hpp, hs⟩
    rcases hs with hempty | ⟨s, hss⟩
    · simp [create_task, htarget, hpost, hstatus, hempty, hpid, hpp]
    · by_cases hc : task.state.getD "" = ""
      · simp [create_task, htarget, hpost, hstatus, hc, hpid, hpp]
      · simp [create_task, htarget, hpost, hstatus, hc, hss, hpid, hpp]
  · rintro ⟨hs, hp⟩
    rcases hs with hempty | ⟨s, hss⟩ <;> rcases hp with hzero | ⟨s2, hps⟩
    · simp [create_task, htarget, hpost, hstatus, hempty, hzero]
    · by_cases hc2 : task.parent_id.getD 0 = 0
      · simp [create_task, htarget, hpost, hstatus, hempty, hc2]
      · simp [create_task, htarget, hpost, hstatus, hempty, hc2, hps]
    · by_cases hc : task.state.getD "" = ""
      · simp [create_task, htarget, hpost, hstatus, hc, hzero]
      · simp [create_task, htarget, hpost, hstatus, hc, hss, hzero]
    · by_cases hc : task.state.getD "" = "" <;> by_cases hc2 : task.parent_id.getD 0 = 0
      · simp [create_task, htarget, hpost, hstatus, hc, hc2]
      · simp [create_task, htarget, hpost, hstatus, hc, hc2, hps]
      · simp [create_task, htarget, hpost, hstatus, hc, hss, hc2]
      · simp [create_task, htarget, hpost, hstatus, hc, hss, hc2, hps]

/-- Witness for C2 (amended): POST succeeds with HTTP 200, the state PATCH
raises a transport error, and the creation fails as a whole. -/
theorem c2_witness :
    firstTruthy [none, some "proj", some "dflt"] = some "proj" ∧
    (⟨.success ⟨200, 1001, "u", "T"⟩, .transportError, .success 200⟩ : CreateEnv).post
      = .success ⟨200, 1001, "u", "T"⟩ ∧
    isHttpSuccess (200 : Nat) = true ∧
    ((⟨"T", "proj", "A", "I", 1, none, [], none, some "Fechado", none, some 2001⟩ :
        TaskConfig).state.getD "" ≠ "" ∧
      (⟨.success ⟨200, 1001, "u", "T"⟩, .transportError, .success 200⟩ : CreateEnv).statePatch
        = .transportError) ∧
    create_task ⟨.success ⟨200, 1001, "u", "T"⟩, .transportError, .success 200⟩ (some "dflt")
      ⟨"T", "proj", "A", "I", 1, none, [], none, some "Fechado", none, some 2001⟩ none
      = .error .transportError :=
  ⟨rfl, rfl, rfl, ⟨by decide, rfl⟩,
    (c2_patch_failure_semantics
      ⟨.success ⟨200, 1001, "u", "T"⟩, .transportError, .success 200⟩ (some "dflt")
      ⟨"T", "proj", "A", "I", 1, none, [], none, some "Fechado", none, some 2001⟩ none
      "proj" ⟨200, 1001, "u", "T"⟩ rfl rfl rfl).1 ⟨by decide, rfl⟩⟩

/-! ## Lemmas about `enhance_description` -/

theorem enhanceGo_spec (env : Nat → LLMResult) (fb : String) :
    ∀ (rem attempt : Nat),
    (∃ i t, attempt ≤ i ∧ i < attempt + rem ∧ env i = .ok t ∧
      enhanceGo env fb attempt rem = pyStrip t) ∨
    enhanceGo env fb attempt rem = fb := by
  intro rem
  induction rem with
  | zero => intro attempt; right; rfl
  | succ r ih =>
    intro attempt
    rw [enhanceGo]
    cases he : env attempt with
    | ok t =>
      left
      exact ⟨attempt, t, Nat.le_refl _, by omega, he, rfl⟩
    | httpError s =>
      right
      rfl
    | status429 =>
      rcases ih (attempt + 1) with ⟨i, t, h1, h2, h3, h4⟩ | hfb
      · left
        exact ⟨i, t, by omega, by omega, h3, h4⟩
      · right
        exact hfb
    | malformed =>
      by_cases hr0 : r = 0
      · right
        rw [if_pos hr0]
      · rw [if_neg hr0]
        rcases ih (attempt + 1) with ⟨i, t, h1, h2, h3, h4⟩ | hfb
        · left
          exact ⟨i, t, by omega, by omega, h3, h4⟩
        · right
          exact hfb
    | transportError =>
      by_cases hr0 : r = 0
      · right
        rw [if_pos hr0]
      · rw [if_neg hr0]
        rcases ih (attempt + 1) with ⟨i, t, h1, h2, h3, h4⟩ | hfb
        · left
          exact ⟨i, t, by omega, by omega, h3, h4⟩
        · right
          exact hfb

/-- C8 — `enhance_description` is total over every behaviour of the
enhancement backend (it catches `httpx.HTTPStatusError` and every other
`Exception`, so nothing propagates): it returns the stripped text of one of
its at most five attempts on success, and otherwise the activity's original
description, or the empty string when the activity has none. -/
theorem c8_enhance_never_raises (env : Nat → LLMResult) (a : Activity) :
    (∃ i t, i < 5 ∧ env i = .ok t ∧ enhance_description env a = pyStrip t) ∨
    enhance_description env a = a.description.getD "" := by
  rcases enhanceGo_spec env (a.description.getD "") 5 0 with ⟨i, t, _, h2, h3, h4⟩ | h
  · left
    exact ⟨i, t, by omega, h3, h4⟩
  · right
    exact h

/-! ## Lemmas about the grouped-mode orchestrator (claim C5) -/

theorem bucketOf_addToBucket (g : List ((Nat × Nat) × List Activity)) (k₀ k : Nat × Nat)
    (a : Activity) :
    bucketOf (addToBucket g k₀ a) k =
      if k₀ = k then bucketOf g k ++ [a] else bucketOf g k := by
  induction g with
  | nil =>
    by_cases h : k₀ = k
    · simp [addToBucket, bucketOf, h]
    · simp [addToBucket, bucketOf, h]
  | cons p rest ih =>
    obtain ⟨k', l⟩ := p
    rw [addToBucket]
    by_cases h1 : k' = k₀
    · rw [if_pos h1, bucketOf]
      by_cases h2 : k' = k
      · have hk : k₀ = k := h1 ▸ h2
        rw [if_pos h2, if_pos hk, bucketOf, if_pos h2]
      · have hk : k₀ ≠ k := fun hc => h2 (by rw [h1, hc])
        rw [if_neg h2, if_neg hk, bucketOf, if_neg h2]
    · rw [if_neg h1, bucketOf]
      by_cases h2 : k' = k
      · have hk : k₀ ≠ k := fun hc => h1 (by rw [h2, hc])
        rw [if_pos h2, if_neg hk, bucketOf, if_pos h2]
      · rw [if_neg h2, ih, bucketOf, if_neg h2]

theorem bucketOf_fold :
    ∀ (acts : List Activity) (g : List ((Nat × Nat) × List Activity)) (k : Nat × Nat),
    bucketOf (acts.foldl (fun g a => addToBucket g (monthKey a) a) g) k =
      bucketOf g k ++ acts.filter (fun a => decide (monthKey a = k)) := by
  intro acts
  induction acts with
  | nil => intro g k; simp
  | cons a rest ih =>
    intro g k
    rw [List.foldl_cons, ih, bucketOf_addToBucket, List.filter_cons]
    by_cases h : monthKey a = k
    · rw [if_pos h, if_pos (by simp [h])]
      simp
    · rw [if_neg h, if_neg (by simp [h])]

/-- The grouping loop partitions: the bucket of `k` is exactly the
subsequence of activities dated in month `k`, in input order. -/
theorem bucketOf_groupByMonth (acts : List Activity) (k : Nat × Nat) :
    bucketOf (groupByMonth acts) k = acts.filter (fun a => decide (monthKey a = k)) := by
  have h := bucketOf_fold acts [] k
  simpa [groupByMonth] using h

theorem mem_keys_addToBucket (g : List ((Nat × Nat) × List Activity)) (k₀ k : Nat × Nat)
    (a : Activity) :
    k ∈ (addToBucket g k₀ a).map Prod.fst ↔ (k = k₀ ∨ k ∈ g.map Prod.fst) := by
  induction g with
  | nil => simp [addToBucket]
  | cons p rest ih =>
    obtain ⟨k', l⟩ := p
    rw [addToBucket]
    by_cases h1 : k' = k₀
    · rw [if_pos h1]
      subst h1
      simp only [List.map_cons, List.mem_cons]
      tauto
    · rw [if_neg h1]
      simp only [List.map_cons, List.mem_cons, ih]
      tauto

theorem nodup_keys_addToBucket (g : List ((Nat × Nat) × List Activity)) (k₀ : Nat × Nat)
    (a : Activity) (h : (g.map Prod.fst).Nodup) :
    ((addToBucket g k₀ a).map Prod.fst).Nodup := by
  induction g with
  | nil => simp [addToBucket]
  | cons p rest ih =>
    obtain ⟨k', l⟩ := p
    rw [List.map_cons, List.nodup_cons] at h
    obtain ⟨hk', hrest⟩ := h
    rw [addToBucket]
    by_cases h1 : k' = k₀
    · rw [if_pos h1]
      rw [List.map_cons, List.nodup_cons]
      exact ⟨hk', hrest⟩
    · rw [if_neg h1]
      rw [List.map_cons, List.nodup_cons]
      refine ⟨?_, ih hrest⟩
      rw [mem_keys_addToBucket]
      rintro (rfl | hmem)
      · exact h1 rfl
      · exact hk' hmem

theorem keys_fold_nodup :
    ∀ (acts : List Activity) (g : List ((Nat × Nat) × List Activity)),
    (g.map Prod.fst).Nodup →
    ((acts.foldl (fun g a => addToBucket g (monthKey a) a) g).map Prod.fst).Nodup := by
  intro acts
  induction acts with
  | nil => intro g h; exact h
  | cons a rest ih =>
    intro g h
    rw [List.foldl_cons]
    exact ih _ (nodup_keys_addToBucket g (monthKey a) a h)

theorem mem_keys_fold :
    ∀ (acts : List Activity) (g : List ((Nat × Nat) × List Activity)) (k : Nat × Nat),
    k ∈ (acts.foldl (fun g a => addToBucket g (monthKey a) a) g).map Prod.fst ↔
      (k ∈ g.map Prod.fst ∨ ∃ a ∈ acts, monthKey a = k) := by
  intro acts
  induction acts with
  | nil =>
    intro g k
    simp
  | cons a rest ih =>
    intro g k
    rw [List.foldl_cons, ih, mem_keys_addToBucket]
    constructor
    · rintro ((rfl | h) | ⟨b, hb, rfl⟩)
      · exact Or.inr ⟨a, List.mem_cons_self _ _, rfl⟩
      · exact Or.inl h
      · exact Or.inr ⟨b, List.mem_cons_of_mem _ hb, rfl⟩
    · rintro (h | ⟨b, hb, rfl⟩)
      · exact Or.inl (Or.inr h)
      · rcases List.mem_cons.mp hb with rfl | hb'
        · exact Or.inl (Or.inl rfl)
        · exact Or.inr ⟨b, hb', rfl⟩

/-- The grouping loop's key list is exactly the distinct month keys of the
batch. -/
theorem keys_groupByMonth (acts : List Activity) :
    ((groupByMonth acts).map Prod.fst).Nodup ∧
    (∀ k, k ∈ (groupByMonth acts).map Prod.fst ↔ ∃ a ∈ acts, monthKey a = k) := by
  constructor
  · exact keys_fold_nodup acts [] (by simp)
  · intro k
    have h := mem_keys_fold acts [] k
    simpa [groupByMonth] using h

theorem processChild_skip (backend : Nat → CreateOutcome) (today : String)
    (parent : Option Int) {st : GroupState} {a : Activity}
    (h : st.dedup.is_processed a = true) :
    processChild backend false today parent st a = { st with
      skipped := st.skipped + 1
      trace := st.trace ++ [.childSkipped a.date.year a.date.month a.title] } := by
  unfold processChild
  rw [if_pos h]

theorem processChild_ok (backend : Nat → CreateOutcome) (today : String)
    (parent : Option Int) {st : GroupState} {a : Activity} {i : Int} {u : String}
    (h : st.dedup.is_processed a = false) (hb : backend st.calls = .ok i u) :
    processChild backend false today parent st a = { st with
      created := st.created + 1
      calls := st.calls + 1
      dedup := (st.dedup.mark_processed a (some i) (some u) today).1
      trace := st.trace ++ [.childCreated a.date.year a.date.month a.title parent i] } := by
  unfold processChild
  rw [if_neg (by simp [h]), if_neg (by simp), hb]

theorem processChild_fail (backend : Nat → CreateOutcome) (today : String)
    (parent : Option Int) {st : GroupState} {a : Activity}
    (h : st.dedup.is_processed a = false) (hb : backend st.calls = .fail) :
    processChild backend false today parent st a = { st with
      calls := st.calls + 1
      trace := st.trace ++ [.childFailed a.date.year a.date.month a.title parent] } := by
  unfold processChild
  rw [if_neg (by simp [h]), if_neg (by simp), hb]

theorem childFold_trace (backend : Nat → CreateOutcome) (today : String)
    (parent : Option Int) :
    ∀ (bucket : List Activity) (st : GroupState),
    ∃ seg, (bucket.foldl (processChild backend false today parent) st).trace =
        st.trace ++ seg ∧
      seg.map GEvent.childTitle = bucket.map (fun a => some a.title) ∧
      ∀ e ∈ seg, e.isParent = false ∧
        (e.childParentId = none ∨ e.childParentId = parent) ∧
        ∃ a ∈ bucket, eventKey e = monthKey a := by
  intro bucket
  induction bucket with
  | nil =>
    intro st
    exact ⟨[], by simp, rfl, by intro e he; cases he⟩
  | cons a rest ih =>
    intro st
    rw [List.foldl_cons]
    have step :
        ∀ (ev : GEvent) (st' : GroupState), st'.trace = st.trace ++ [ev] →
        ev.childTitle = some a.title → ev.isParent = false →
        (ev.childParentId = none ∨ ev.childParentId = parent) →
        eventKey ev = monthKey a →
        ∃ seg, (rest.foldl (processChild backend false today parent) st').trace =
            st.trace ++ seg ∧
          seg.map GEvent.childTitle = (a :: rest).map (fun a => some a.title) ∧
          ∀ e ∈ seg, e.isParent = false ∧
            (e.childParentId = none ∨ e.childParentId = parent) ∧
            ∃ b ∈ a :: rest, eventKey e = monthKey b := by
      intro ev st' htr htitle hpar hpid hkey
      obtain ⟨seg, h1, h2, h3⟩ := ih st'
      refine ⟨ev :: seg, ?_, ?_, ?_⟩
      · rw [h1, htr, List.append_assoc]
        rfl
      · rw [List.map_cons, List.map_cons, htitle, h2]
      · intro e he
        rcases List.mem_cons.mp he with rfl | he'
        · exact ⟨hpar, hpid, a, List.mem_cons_self _ _, hkey⟩
        · obtain ⟨q1, q2, b, hb, q3⟩ := h3 e he'
          exact ⟨q1, q2, b, List.mem_cons_of_mem _ hb, q3⟩
    by_cases hp : st.dedup.is_processed a
    · rw [processChild_skip backend today parent hp]
      exact step (.childSkipped a.date.year a.date.month a.title) _ rfl rfl rfl
        (Or.inl rfl) rfl
    · rw [Bool.not_eq_true] at hp
      cases hb : backend st.calls with
      | ok i u =>
        rw [processChild_ok backend today parent hp hb]
        exact step (.childCreated a.date.year a.date.month a.title parent i) _ rfl rfl rfl
          (Or.inr rfl) rfl
      | fail =>
        rw [processChild_fail backend today parent hp hb]
        exact step (.childFailed a.date.year a.date.month a.title parent) _ rfl rfl rfl
          (Or.inr rfl) rfl

theorem processMonth_eq_reused (backend : Nat → CreateOutcome) (today : String)
    (g : List ((Nat × Nat) × List Activity)) {st : GroupState} {k : Nat × Nat}
    (h : st.dedup.is_user_story_processed k.1 k.2 = true) :
    processMonth backend false today g st k =
      (bucketOf g k).foldl
        (processChild backend false today (st.dedup.get_user_story_id k.1 k.2))
        { st with trace := st.trace ++
            [.parentReused k.1 k.2 (st.dedup.get_user_story_id k.1 k.2)] } := by
  unfold processMonth
  rw [if_pos h]

theorem processMonth_eq_created (backend : Nat → CreateOutcome) (today : String)
    (g : List ((Nat × Nat) × List Activity)) {st : GroupState} {k : Nat × Nat}
    {i : Int} {u : String}
    (h : st.dedup.is_user_story_processed k.1 k.2 = false)
    (hb : backend st.calls = .ok i u) :
    processMonth backend false today g st k =
      (bucketOf g k).foldl (processChild backend false today (some i))
        { st with
          calls := st.calls + 1
          dedup := st.dedup.mark_user_story_processed k.1 k.2 i u today
          trace := st.trace ++ [.parentCreated k.1 k.2 i] } := by
  unfold processMonth
  rw [if_neg (by simp [h]), if_neg (by simp), hb]

theorem processMonth_eq_failed (backend : Nat → CreateOutcome) (today : String)
    (g : List ((Nat × Nat) × List Activity)) {st : GroupState} {k : Nat × Nat}
    (h : st.dedup.is_user_story_processed k.1 k.2 = false)
    (hb : backend st.calls = .fail) :
    processMonth backend false today g st k =
      (bucketOf g k).foldl (processChild backend false today none)
        { st with
          calls := st.calls + 1
          trace := st.trace ++ [.parentFailed k.1 k.2] } := by
  unfold processMonth
  rw [if_neg (by simp [h]), if_neg (by simp), hb]

theorem processMonth_trace (backend : Nat → CreateOutcome) (today : String)
    (g : List ((Nat × Nat) × List Activity)) (k : Nat × Nat) (st : GroupState)
    (hbk : ∀ a ∈ bucketOf g k, monthKey a = k) :
    ∃ pe parentVal seg,
      (processMonth backend false today g st k).trace = st.trace ++ pe :: seg ∧
      pe.isParent = true ∧ eventKey pe = k ∧
      (pe = GEvent.parentFailed k.1 k.2 → parentVal = none) ∧
      seg.map GEvent.childTitle = (bucketOf g k).map (fun a => some a.title) ∧
      (∀ e ∈ seg, e.isParent = false ∧
        (e.childParentId = none ∨ e.childParentId = parentVal) ∧ eventKey e = k) := by
  have finish :
      ∀ (pe : GEvent) (parentVal : Option Int) (st' : GroupState),
      st'.trace = st.trace ++ [pe] → pe.isParent = true → eventKey pe = k →
      (pe = GEvent.parentFailed k.1 k.2 → parentVal = none) →
      ∃ peo pvo seg,
        ((bucketOf g k).foldl (processChild backend false today parentVal) st').trace =
          st.trace ++ peo :: seg ∧
        peo.isParent = true ∧ eventKey peo = k ∧
        (peo = GEvent.parentFailed k.1 k.2 → pvo = none) ∧
        seg.map GEvent.childTitle = (bucketOf g k).map (fun a => some a.title) ∧
        (∀ e ∈ seg, e.isParent = false ∧
          (e.childParentId = none ∨ e.childParentId = pvo) ∧ eventKey e = k) := by
    intro pe parentVal st' htr hpar hkey hfail
    obtain ⟨seg, h1, h2, h3⟩ := childFold_trace backend today parentVal (bucketOf g k) st'
    refine ⟨pe, parentVal, seg, ?_, hpar, hkey, hfail, h2, ?_⟩
    · rw [h1, htr, List.append_assoc]
      rfl
    · intro e he
      obtain ⟨q1, q2, b, hb, q3⟩ := h3 e he
      exact ⟨q1, q2, by rw [q3, hbk b hb]⟩
  by_cases hus : st.dedup.is_user_story_processed k.1 k.2
  · rw [processMonth_eq_reused backend today g hus]
    exact finish (.parentReused k.1 k.2 (st.dedup.get_user_story_id k.1 k.2))
      (st.dedup.get_user_story_id k.1 k.2) _ rfl rfl Prod.mk.eta
      (fun hc => GEvent.noConfusion hc)
  · rw [Bool.not_eq_true] at hus
    cases hb : backend st.calls with
    | ok i u =>
      rw [processMonth_eq_created backend today g hus hb]
      exact finish (.parentCreated k.1 k.2 i) (some i) _ rfl rfl Prod.mk.eta
        (fun hc => GEvent.noConfusion hc)
    | fail =>
      rw [processMonth_eq_failed backend today g hus hb]
      exact finish (.parentFailed k.1 k.2) none _ rfl rfl Prod.mk.eta (fun _ => rfl)

theorem groupFold_trace_ext (backend : Nat → CreateOutcome) (today : String)
    (g : List ((Nat × Nat) × List Activity))
    (hg : ∀ k, ∀ a ∈ bucketOf g k, monthKey a = k) :
    ∀ (ks : List (Nat × Nat)) (st : GroupState),
    ∃ ext, (ks.foldl (processMonth backend false today g) st).trace = st.trace ++ ext ∧
      ∀ e ∈ ext, eventKey e ∈ ks := by
  intro ks
  induction ks with
  | nil =>
    intro st
    exact ⟨[], by simp, by intro e he; cases he⟩
  | cons k₀ rest ih =>
    intro st
    rw [List.foldl_cons]
    obtain ⟨pe, pv, seg, h1, _, hkey, _, _, h6⟩ :=
      processMonth_trace backend today g k₀ st (hg k₀)
    obtain ⟨ext, e1, e2⟩ := ih (processMonth backend false today g st k₀)
    refine ⟨(pe :: seg) ++ ext, ?_, ?_⟩
    · rw [e1, h1, List.append_assoc]
    · intro e he
      rcases List.mem_append.mp he with hin | hin
      · rcases List.mem_cons.mp hin with rfl | hin'
        · rw [hkey]
          exact List.mem_cons_self _ _
        · rw [(h6 e hin').2.2]
          exact List.mem_cons_self _ _
      · exact List.mem_cons_of_mem _ (e2 e hin)

theorem groupFold_filter (backend : Nat → CreateOutcome) (today : String)
    (g : List ((Nat × Nat) × List Activity))
    (hg : ∀ k, ∀ a ∈ bucketOf g k, monthKey a = k) :
    ∀ (ks : List (Nat × Nat)), ks.Nodup → ∀ (st : GroupState) (k : Nat × Nat), k ∈ ks →
    st.trace.filter (fun e => decide (eventKey e = k)) = [] →
    ∃ pe ce,
      (ks.foldl (processMonth backend false today g) st).trace.filter
        (fun e => decide (eventKey e = k)) = pe :: ce ∧
      pe.isParent = true ∧ eventKey pe = k ∧
      ce.map GEvent.childTitle = (bucketOf g k).map (fun a => some a.title) ∧
      (∀ e ∈ ce, e.isParent = false) ∧
      (pe = GEvent.parentFailed k.1 k.2 → ∀ e ∈ ce, e.childParentId = none) := by
  intro ks
  induction ks with
  | nil =>
    intro _ st k hk
    cases hk
  | cons k₀ rest ih =>
    intro hnd st k hk hclean
    rw [List.nodup_cons] at hnd
    obtain ⟨hk₀nin, hndr⟩ := hnd
    rw [List.foldl_cons]
    obtain ⟨pe, pv, seg, h1, h2, h3, h4, h5, h6⟩ :=
      processMonth_trace backend today g k₀ st (hg k₀)
    rcases List.mem_cons.mp hk with rfl | hkrest
    · obtain ⟨ext, e1, e2⟩ :=
        groupFold_trace_ext backend today g hg rest (processMonth backend false today g st k)
      refine ⟨pe, seg, ?_, h2, h3, h5, (fun e he => (h6 e he).1), ?_⟩
      · rw [e1, h1, List.append_assoc, List.filter_append, hclean, List.nil_append,
          List.filter_append]
        have hseg : (pe :: seg).filter (fun e => decide (eventKey e = k)) = pe :: seg := by
          rw [List.filter_eq_self]
          intro e he
          rcases List.mem_cons.mp he with rfl | he'
          · simp [h3]
          · simp [(h6 e he').2.2]
        have hext : ext.filter (fun e => decide (eventKey e = k)) = [] := by
          rw [List.filter_eq_nil_iff]
          intro e he
          simp only [decide_eq_true_eq]
          intro hc
          exact hk₀nin (hc ▸ e2 e he)
        rw [hseg, hext, List.append_nil]
      · intro hpe e he
        rcases (h6 e he).2.1 with hnone | hpv
        · exact hnone
        · rw [hpv, h4 hpe]
    · have hkne : k ≠ k₀ := fun hc => hk₀nin (hc ▸ hkrest)
      refine ih hndr (processMonth backend false today g st k₀) k hkrest ?_
      rw [h1, List.filter_append, hclean, List.nil_append, List.filter_eq_nil_iff]
      intro e he
      simp only [decide_eq_true_eq]
      intro hc
      rcases List.mem_cons.mp he with rfl | he'
      · exact hkne (by rw [← hc, h3])
      · exact hkne (by rw [← hc, (h6 e he').2.2])

theorem sorted_const :
    ∀ (l : List (Nat × Nat)) (c : Nat × Nat), (∀ x ∈ l, x = c) →
    List.Sorted pairLe l := by
  intro l
  induction l with
  | nil => intro c _; exact List.sorted_nil
  | cons x rest ih =>
    intro c h
    rw [List.sorted_cons]
    constructor
    · intro b hb
      rw [h x (List.mem_cons_self _ _), h b (List.mem_cons_of_mem _ hb)]
      unfold pairLe
      omega
    · exact ih c (fun y hy => h y (List.mem_cons_of_mem _ hy))

theorem groupFold_sorted (backend : Nat → CreateOutcome) (today : String)
    (g : List ((Nat × Nat) × List Activity))
    (hg : ∀ k, ∀ a ∈ bucketOf g k, monthKey a = k) :
    ∀ (ks : List (Nat × Nat)) (st : GroupState),
    List.Sorted pairLe ks →
    List.Sorted pairLe (st.trace.map eventKey) →
    (∀ e ∈ st.trace, ∀ k ∈ ks, pairLe (eventKey e) k) →
    List.Sorted pairLe
      ((ks.foldl (processMonth backend false today g) st).trace.map eventKey) := by
  intro ks
  induction ks with
  | nil => intro st _ hs _; exact hs
  | cons k₀ rest ih =>
    intro st hks hst hcross
    rw [List.foldl_cons]
    obtain ⟨pe, pv, seg, h1, _, h3, _, _, h6⟩ :=
      processMonth_trace backend today g k₀ st (hg k₀)
    have hallk : ∀ e ∈ pe :: seg, eventKey e = k₀ := by
      intro e he
      rcases List.mem_cons.mp he with rfl | he'
      · exact h3
      · exact (h6 e he').2.2
    have hsorted' :
        List.Sorted pairLe ((processMonth backend false today g st k₀).trace.map eventKey) := by
      rw [h1, List.map_append]
      show List.Pairwise pairLe _
      rw [List.pairwise_append]
      refine ⟨hst, ?_, ?_⟩
      · apply sorted_const _ k₀
        intro x hx
        rw [List.mem_map] at hx
        obtain ⟨e, he, rfl⟩ := hx
        exact hallk e he
      · intro x hx y hy
        rw [List.mem_map] at hx hy
        obtain ⟨e, he, rfl⟩ := hx
        obtain ⟨e', he', rfl⟩ := hy
        rw [hallk e' he']
        exact hcross e he k₀ (List.mem_cons_self _ _)
    have hcross' : ∀ e ∈ (processMonth backend false today g st k₀).trace, ∀ k ∈ rest,
        pairLe (eventKey e) k := by
      intro e he k hk
      rw [h1] at he
      rcases List.mem_append.mp he with he' | he''
      · exact hcross e he' k (List.mem_cons_of_mem _ hk)
      · rw [hallk e he'']
        exact List.rel_of_sorted_cons hks k hk
    exact ih _ (List.Sorted.of_cons hks) hsorted' hcross'

/-- C5 — grouped mode: the orchestrator partitions the batch into
insertion-ordered `(year, month)` buckets that preserve input order (the
bucket of `k` is exactly the subsequence dated in month `k`), processes the
distinct month keys in ascending chronological order (the event keys of the
run's trace ascend), and within each month the single parent event comes
first, followed by exactly one child event per bucket activity in bucket
order; when the month's parent creation failed, every child of that month
carries no parent id. -/
theorem c5_grouped_mode (backend : Nat → CreateOutcome) (acts : List Activity)
    (dedup : DedupManager) (today : String) :
    List.Sorted pairLe (List.insertionSort pairLe ((groupByMonth acts).map Prod.fst)) ∧
    (List.insertionSort pairLe ((groupByMonth acts).map Prod.fst)).Perm
      ((groupByMonth acts).map Prod.fst) ∧
    ((groupByMonth acts).map Prod.fst).Nodup ∧
    (∀ k, k ∈ (groupByMonth acts).map Prod.fst ↔ ∃ a ∈ acts, monthKey a = k) ∧
    (∀ k, bucketOf (groupByMonth acts) k =
      acts.filter (fun a => decide (monthKey a = k))) ∧
    (∀ k ∈ (groupByMonth acts).map Prod.fst,
      ∃ pe ce,
        (process_activities_with_user_stories backend acts dedup false today).trace.filter
          (fun e => decide (eventKey e = k)) = pe :: ce ∧
        pe.isParent = true ∧ eventKey pe = k ∧
        ce.map GEvent.childTitle =
          (bucketOf (groupByMonth acts) k).map (fun a => some a.title) ∧
        (∀ e ∈ ce, e.isParent = false) ∧
        (pe = GEvent.parentFailed k.1 k.2 → ∀ e ∈ ce, e.childParentId = none)) ∧
    List.Sorted pairLe
      ((process_activities_with_user_stories backend acts dedup false today).trace.map
        eventKey) := by
  have hg : ∀ k, ∀ a ∈ bucketOf (groupByMonth acts) k, monthKey a = k := by
    intro k a ha
    rw [bucketOf_groupByMonth] at ha
    have hm := List.mem_filter.mp ha
    simpa using hm.2
  obtain ⟨hnodup, hmem⟩ := keys_groupByMonth acts
  have hperm := List.perm_insertionSort pairLe ((groupByMonth acts).map Prod.fst)
  have hsorted := List.sorted_insertionSort pairLe ((groupByMonth acts).map Prod.fst)
  refine ⟨hsorted, hperm, hnodup, hmem, fun k => bucketOf_groupByMonth acts k, ?_, ?_⟩
  · intro k hk
    have hks_nodup : (List.insertionSort pairLe ((groupByMonth acts).map Prod.fst)).Nodup :=
      hperm.nodup_iff.mpr hnodup
    have hk' : k ∈ List.insertionSort pairLe ((groupByMonth acts).map Prod.fst) :=
      hperm.mem_iff.mpr hk
    exact groupFold_filter backend today (groupByMonth acts) hg _ hks_nodup
      ⟨0, 0, dedup, 0, []⟩ k hk' rfl
  · exact groupFold_sorted backend today (groupByMonth acts) hg _ ⟨0, 0, dedup, 0, []⟩
      hsorted List.sorted_nil (by intro e he; cases he)

/-- Witness for C5 at a concrete two-month batch (February after January in
the input, so the sort reorders them). -/
theorem c5_witness :
    ((2026, 1) : Nat × Nat) ∈
      (groupByMonth
        [⟨"Reunião", .outlook, ⟨2026, 2, 19⟩, 1, none, none, none, [], none⟩,
         ⟨"Daily", .recurring, ⟨2026, 1, 5⟩, 1, none, none, none, [], none⟩]).map Prod.fst ∧
    ∃ pe ce,
      (process_activities_with_user_stories (fun n => if n = 0 then .fail else .ok 50 "u")
        [⟨"Reunião", .outlook, ⟨2026, 2, 19⟩, 1, none, none, none, [], none⟩,
         ⟨"Daily", .recurring, ⟨2026, 1, 5⟩, 1, none, none, none, [], none⟩]
        DedupManager.fresh false "t").trace.filter
          (fun e => decide (eventKey e = ((2026, 1) : Nat × Nat))) = pe :: ce ∧
      pe.isParent = true ∧ eventKey pe = ((2026, 1) : Nat × Nat) ∧
      ce.map GEvent.childTitle =
        (bucketOf (groupByMonth
          [⟨"Reunião", .outlook, ⟨2026, 2, 19⟩, 1, none, none, none, [], none⟩,
           ⟨"Daily", .recurring, ⟨2026, 1, 5⟩, 1, none, none, none, [], none⟩])
          ((2026, 1) : Nat × Nat)).map (fun a => some a.title) ∧
      (∀ e ∈ ce, e.isParent = false) ∧
      (pe = GEvent.parentFailed 2026 1 → ∀ e ∈ ce, e.childParentId = none) :=
  ⟨by decide,
    (c5_grouped_mode (fun n => if n = 0 then .fail else .ok 50 "u")
      [⟨"Reunião", .outlook, ⟨2026, 2, 19⟩, 1, none, none, none, [], none⟩,
       ⟨"Daily", .recurring, ⟨2026, 1, 5⟩, 1, none, none, none, [], none⟩]
      DedupManager.fresh "t").2.2.2.2.2.1 (2026, 1) (by decide)⟩

end ADF

